import Mathlib

/-!
# KVFS: a FUSE driver that stores every object under the MD5 key of its path

Shallow embedding of `src/kvfs.c` and `src/kvfs_functions.c`.

* A C string is the list of its characters before the terminating NUL.
* The MD5 function of the OpenSSL library is a parameter `md5`; the streaming
  interface `MD5_Init` / `MD5_Update` / `MD5_Final` is modelled by the list of
  blocks handed to `MD5_Update`, whose digest is `md5` of their concatenation.
* Fixed-size destination buffers (`char actual_path[PATH_MAX]`) are assumed to
  be large enough for what is copied into them.
-/

namespace KVFS

/-! ## Data model -/

/-- The characters of a C string, terminator excluded. -/
abbrev CString := List Char

/-- The terminating character of a C string. -/
def NUL : Char := Char.ofNat 0

/-- The array `unsigned char digest[16]`. -/
abbrev Digest := Fin 16 → Fin 256

/-- The state of an `MD5_CTX`: the data blocks absorbed so far, oldest first. -/
abbrev MD5_CTX := List (List Char)

/-- The context after `MD5_Init`. -/
def MD5_Init : MD5_CTX := []

/-- The call `MD5_Update(&c, data, len)` absorbs the first `len` bytes at `data`. -/
def MD5_Update (c : MD5_CTX) (data : List Char) (len : Nat) : MD5_CTX :=
  c ++ [data.take len]

/-- The call `MD5_Final(digest, &c)`: the digest of everything absorbed. -/
def MD5_Final (md5 : List Char → Digest) (c : MD5_CTX) : Digest :=
  md5 c.flatten

/-! ## `str2md5` (kvfs.c) -/

/-- The `while (length > 0)` loop of `str2md5`; `str` is the memory from the
current pointer on, so `str += 512` drops 512 characters. -/
def str2md5_loop (c : MD5_CTX) (str : List Char) (length : Int) : MD5_CTX :=
  if length > 0 then
    let c1 := if length > 512 then MD5_Update c str 512
              else MD5_Update c str length.toNat
    str2md5_loop c1 (str.drop 512) (length - 512)
  else c
termination_by length.toNat
decreasing_by omega

/-- One lowercase hexadecimal digit. -/
def hexDigit (d : Nat) : Char :=
  "0123456789abcdef".toList.getD d '0'

/-- The text that the conversion `%02x` produces for an `unsigned char`. -/
def fmt_02x (v : Fin 256) : List Char :=
  [hexDigit (v.val / 16), hexDigit (v.val % 16)]

/-- Store the characters `cs` into `buf` from index `pos` on. -/
def poke (buf : List Char) (pos : Nat) : List Char → List Char
  | [] => buf
  | c :: cs => poke (buf.set pos c) (pos + 1) cs

/-- The call `snprintf(&buf[pos], size, "%02x", v)`: at most `size - 1`
characters of the text, then the terminator. -/
def snprintf_02x (buf : List Char) (pos size : Nat) (v : Fin 256) : List Char :=
  if size = 0 then buf else poke buf pos ((fmt_02x v).take (size - 1) ++ [NUL])

/-- The loop `for (n = 0; n < 16; ++n) snprintf(&(out[n*2]), 16*2, "%02x", digest[n])`. -/
def str2md5_format (digest : Digest) (out : List Char) : List Char :=
  (List.finRange 16).foldl
    (fun buf n => snprintf_02x buf (n.val * 2) (16 * 2) (digest n)) out

/-- A fresh heap block of `n` characters. C leaves its contents indeterminate;
`str2md5_format_eq` shows that they do not reach the result. -/
def malloc (n : Nat) : List Char := List.replicate n '?'

/-- The C string stored at the start of a buffer. -/
def cstr (buf : List Char) : CString := buf.takeWhile (fun c => c ≠ NUL)

/-- The digest that `MD5_Final` leaves in `digest` inside `str2md5`. -/
def str2md5_digest (md5 : List Char → Digest) (str : List Char) (length : Int) : Digest :=
  MD5_Final md5 (str2md5_loop MD5_Init str length)

/-- The function `char *str2md5(const char *str, int length)`. -/
@[irreducible] def str2md5 (md5 : List Char → Digest) (str : List Char) (length : Int) : CString :=
  cstr (str2md5_format (str2md5_digest md5 str length) (malloc 33))

/-- The length of a C string. -/
def strlen (s : CString) : Nat := s.length

/-- Conversion of a `size_t` to the `int` parameter of `str2md5`. -/
def size_t_to_int (n : Nat) : Int := Int.bmod n (2 ^ 32)

/-- The key of a virtual path, `str2md5(path, strlen(path))`, as every
operation of kvfs.c computes it. -/
@[irreducible] def fingerprint (md5 : List Char → Digest) (path : CString) : CString :=
  str2md5 md5 path (size_t_to_int (strlen path))

/-- The constant `PATH_MAX` of `<limits.h>` (Linux). -/
def PATH_MAX : Nat := 4096

/-- The 32 characters that render a digest in hexadecimal. -/
def hexEncode (d : Digest) : CString :=
  (List.finRange 16).flatMap (fun i => fmt_02x (d i))

/-- A simple digest function for evaluating the definitions on examples. -/
def sampleDigest (msg : List Char) : Digest :=
  fun i => ⟨(msg.foldl (fun acc c => (acc * 31 + c.toNat + i.val) % 256) 7) % 256,
    Nat.mod_lt _ (by decide)⟩

/-! ## The host file system as the driver sees it -/

/-- The library and system calls that kvfs_functions.c issues. -/
inductive Syscall where
  | lstat (path : CString)
  | readlink (path : CString) (bufsiz : Nat)
  | open_ (path : CString) (flags : Int) (mode : Option Nat)
  | close (fd : Int)
  | mkfifo (path : CString) (mode : Nat)
  | mknod (path : CString) (mode : Nat) (dev : Nat)
  | mkdir (path : CString) (mode : Nat)
  | unlink (path : CString)
  | rmdir (path : CString)
  | symlink (target : CString) (linkpath : CString)
  | rename (oldpath : CString) (newpath : CString)
  | link (oldpath : CString) (newpath : CString)
  | chmod (path : CString) (mode : Nat)
  | chown (path : CString) (uid : Nat) (gid : Nat)
  | truncate (path : CString) (newsize : Int)
  | utime (path : CString) (actime : Int) (modtime : Int)
  | pread (fd : Int) (size : Nat) (offset : Int)
  | pwrite (fd : Int) (buf : List Char) (size : Nat) (offset : Int)
  | statvfs (path : CString)
  | fsync (fd : Int)
  | lsetxattr (path : CString) (name : CString) (value : List Char) (size : Nat) (flags : Int)
  | lgetxattr (path : CString) (name : CString) (size : Nat)
  | llistxattr (path : CString) (size : Nat)
  | lremovexattr (path : CString) (name : CString)
  | opendir (path : CString)
  | readdir (dp : Int)
  | closedir (dp : Int)
  | access (path : CString) (mask : Int)
  | ftruncate (fd : Int) (offset : Int)
  | fstat (fd : Int)
  deriving DecidableEq

/-- What a call hands back: its return value (for `opendir` and `readdir` the
pointer, 0 being `NULL`), the value of `errno` after the call, and the bytes it
stored through an output pointer (link contents, `d_name`, data read). -/
structure SysRet where
  ret : Int
  errno : Int
  data : List Char
  deriving DecidableEq

/-- An environment: how a world of type `W` answers a call. -/
abbrev Sys (W : Type) := Syscall → W → SysRet × W

/-- The node `struct listNode`; its field `next` is never assigned nor read. -/
structure ListNode where
  hashedVal : CString
  fileName : CString
  deriving DecidableEq

/-- The globals of kvfs_functions.c (`first_run`, `root`), the field `rootdir`
of `KVFS_DATA`, and the world outside the process. -/
structure Driver (W : Type) where
  first_run : Int
  root : Option ListNode
  rootdir : CString
  world : W

/-- The state in which `fuse_main` starts to serve operations: `first_run = 0`
and `root = NULL`, as the initialisers of kvfs_functions.c leave them. -/
def Driver.initial {W : Type} (rootdir : CString) (w : W) : Driver W :=
  { first_run := 0, root := none, rootdir := rootdir, world := w }

/-- Issue a call and keep the world it leaves. -/
def Driver.call {W : Type} (sys : Sys W) (st : Driver W) (c : Syscall) : SysRet × Driver W :=
  ((sys c st.world).1, { st with world := (sys c st.world).2 })

/-- An environment that also records, in order, every call it receives. -/
def traced {W : Type} (sys : Sys W) : Sys (W × List Syscall) :=
  fun c w => ((sys c w.1).1, ((sys c w.1).2, w.2 ++ [c]))

/-- Modelled from the spec: `log_syscall` of log.c, which is not among the
sources. §6 has every operation return "a zero/success or negative-error-code
result" and §4.4 "propagate the accessor's error code unchanged": a return
value below `min_ret` becomes `-errno`, any other is passed on. -/
def log_syscall (errno : Int) (retstat : Int) (min_ret : Int) : Int :=
  if retstat < min_ret then -errno else retstat

/-- Modelled from the spec: `log_error` of log.c, which is not among the
sources: the negative error code of the call that just failed (§6). -/
def log_error (errno : Int) : Int := -errno

/-- The constant `ENOMEM` of `<errno.h>`. -/
def ENOMEM : Int := 12

/-- The macro `S_ISREG` of `<sys/stat.h>`. -/
def S_ISREG (mode : Nat) : Bool := mode &&& 0o170000 == 0o100000

/-- The macro `S_ISFIFO` of `<sys/stat.h>`. -/
def S_ISFIFO (mode : Nat) : Bool := mode &&& 0o170000 == 0o010000

/-- The flags `O_CREAT | O_EXCL | O_WRONLY` of `<fcntl.h>` (Linux). -/
def O_CREAT_EXCL_WRONLY : Int := 0o301

/-- The structure `fuse_file_info`, reduced to the two fields the driver uses. -/
structure fuse_file_info where
  flags : Int
  fh : Int
  deriving DecidableEq

/-! ## kvfs_functions.c -/

/-- The call `strncat(dest, src, n)`. -/
def strncat (dest src : CString) (n : Nat) : CString := dest ++ src.take n

/-- The function `real_path`: `strcpy` of `rootdir`, then `strncat` of `path`. -/
def real_path (rootdir path : CString) : CString :=
  strncat rootdir path PATH_MAX

/-- The function `real_path_inside_root`: `rootdir`, then `"/"`, then `path`. -/
def real_path_inside_root (rootdir path : CString) : CString :=
  strncat (rootdir ++ "/".toList) path PATH_MAX

/-- The branch shared by the four root-aware operations:
`if (strcmp(root->hashedVal, path) == 0) ... else ...`. -/
def root_or_inside (root : ListNode) (rootdir path : CString) : CString :=
  if root.hashedVal = path then real_path rootdir "/".toList
  else real_path_inside_root rootdir path

/-- The function `kvfs_getattr_impl`; no result when `root` is `NULL`. -/
def kvfs_getattr_impl {W : Type} (sys : Sys W) (st : Driver W) (path : CString) :
    Option (Int × Driver W) :=
  match st.root with
  | none => none
  | some root =>
    let r := st.call sys (.lstat (root_or_inside root st.rootdir path))
    some (log_syscall r.1.errno r.1.ret 0, r.2)

/-- The function `kvfs_readlink_impl`; `link` is the caller's buffer, returned
with what the call and the terminator stored in it. -/
def kvfs_readlink_impl {W : Type} (sys : Sys W) (st : Driver W) (path : CString)
    (link : List Char) (size : Nat) : Int × List Char × Driver W :=
  let actual_path := real_path_inside_root st.rootdir path
  let r := st.call sys (.readlink actual_path ((size + 2 ^ 64 - 1) % 2 ^ 64))
  let link1 := poke link 0 r.1.data
  let retstat := log_syscall r.1.errno r.1.ret 0
  if retstat ≥ 0 then (0, link1.set retstat.toNat NUL, r.2) else (retstat, link1, r.2)

/-- The function `kvfs_mknod_impl`. -/
def kvfs_mknod_impl {W : Type} (sys : Sys W) (st : Driver W) (path : CString)
    (mode dev : Nat) : Int × Driver W :=
  let actual_path := real_path_inside_root st.rootdir path
  if S_ISREG mode then
    let r := st.call sys (.open_ actual_path O_CREAT_EXCL_WRONLY (some mode))
    let retstat := log_syscall r.1.errno r.1.ret 0
    if retstat ≥ 0 then
      let r2 := r.2.call sys (.close retstat)
      (log_syscall r2.1.errno r2.1.ret 0, r2.2)
    else (retstat, r.2)
  else if S_ISFIFO mode then
    let r := st.call sys (.mkfifo actual_path mode)
    (log_syscall r.1.errno r.1.ret 0, r.2)
  else
    let r := st.call sys (.mknod actual_path mode dev)
    (log_syscall r.1.errno r.1.ret 0, r.2)

/-- The function `kvfs_mkdir_impl`. -/
def kvfs_mkdir_impl {W : Type} (sys : Sys W) (st : Driver W) (path : CString) (mode : Nat) :
    Int × Driver W :=
  let actual_path := real_path_inside_root st.rootdir path
  let r := st.call sys (.mkdir actual_path mode)
  (log_syscall r.1.errno r.1.ret 0, r.2)

/-- The function `kvfs_unlink_impl`. -/
def kvfs_unlink_impl {W : Type} (sys : Sys W) (st : Driver W) (path : CString) :
    Int × Driver W :=
  let actual_path := real_path_inside_root st.rootdir path
  let r := st.call sys (.unlink actual_path)
  (log_syscall r.1.errno r.1.ret 0, r.2)

/-- The function `kvfs_rmdir_impl`. -/
def kvfs_rmdir_impl {W : Type} (sys : Sys W) (st : Driver W) (path : CString) :
    Int × Driver W :=
  let actual_path := real_path_inside_root st.rootdir path
  let r := st.call sys (.rmdir actual_path)
  (log_syscall r.1.errno r.1.ret 0, r.2)

/-- The function `kvfs_symlink_impl`: `symlink(path, flink)`. -/
def kvfs_symlink_impl {W : Type} (sys : Sys W) (st : Driver W) (path link : CString) :
    Int × Driver W :=
  let flink := real_path_inside_root st.rootdir link
  let r := st.call sys (.symlink path flink)
  (log_syscall r.1.errno r.1.ret 0, r.2)

/-- The function `kvfs_rename_impl`. -/
def kvfs_rename_impl {W : Type} (sys : Sys W) (st : Driver W) (path newpath : CString) :
    Int × Driver W :=
  let actual_path := real_path_inside_root st.rootdir path
  let fnewpath := real_path_inside_root st.rootdir newpath
  let r := st.call sys (.rename actual_path fnewpath)
  (log_syscall r.1.errno r.1.ret 0, r.2)

/-- The function `kvfs_link_impl`. -/
def kvfs_link_impl {W : Type} (sys : Sys W) (st : Driver W) (path newpath : CString) :
    Int × Driver W :=
  let actual_path := real_path_inside_root st.rootdir path
  let fnewpath := real_path_inside_root st.rootdir newpath
  let r := st.call sys (.link actual_path fnewpath)
  (log_syscall r.1.errno r.1.ret 0, r.2)

/-- The function `kvfs_chmod_impl`. -/
def kvfs_chmod_impl {W : Type} (sys : Sys W) (st : Driver W) (path : CString) (mode : Nat) :
    Int × Driver W :=
  let actual_path := real_path_inside_root st.rootdir path
  let r := st.call sys (.chmod actual_path mode)
  (log_syscall r.1.errno r.1.ret 0, r.2)

/-- The function `kvfs_chown_impl`. -/
def kvfs_chown_impl {W : Type} (sys : Sys W) (st : Driver W) (path : CString) (uid gid : Nat) :
    Int × Driver W :=
  let actual_path := real_path_inside_root st.rootdir path
  let r := st.call sys (.chown actual_path uid gid)
  (log_syscall r.1.errno r.1.ret 0, r.2)

/-- The function `kvfs_truncate_impl`. -/
def kvfs_truncate_impl {W : Type} (sys : Sys W) (st : Driver W) (path : CString)
    (newsize : Int) : Int × Driver W :=
  let actual_path := real_path_inside_root st.rootdir path
  let r := st.call sys (.truncate actual_path newsize)
  (log_syscall r.1.errno r.1.ret 0, r.2)

/-- The function `kvfs_utime_impl`; `ubuf` is the pair of times. -/
def kvfs_utime_impl {W : Type} (sys : Sys W) (st : Driver W) (path : CString)
    (actime modtime : Int) : Int × Driver W :=
  let actual_path := real_path_inside_root st.rootdir path
  let r := st.call sys (.utime actual_path actime modtime)
  (log_syscall r.1.errno r.1.ret 0, r.2)

/-- The function `kvfs_open_impl`; returns `retstat` and the updated `fi`. -/
def kvfs_open_impl {W : Type} (sys : Sys W) (st : Driver W) (path : CString)
    (fi : fuse_file_info) : Int × fuse_file_info × Driver W :=
  let actual_path := real_path_inside_root st.rootdir path
  let r := st.call sys (.open_ actual_path fi.flags none)
  let fd := log_syscall r.1.errno r.1.ret 0
  let retstat := if fd < 0 then log_error r.1.errno else 0
  (retstat, { fi with fh := fd }, r.2)

/-- The function `kvfs_read_impl`; also returns the bytes stored in `buf`. -/
def kvfs_read_impl {W : Type} (sys : Sys W) (st : Driver W) (_path : CString)
    (size : Nat) (offset : Int) (fi : fuse_file_info) : Int × List Char × Driver W :=
  let r := st.call sys (.pread fi.fh size offset)
  (log_syscall r.1.errno r.1.ret 0, r.1.data, r.2)

/-- The function `kvfs_write_impl`. -/
def kvfs_write_impl {W : Type} (sys : Sys W) (st : Driver W) (_path : CString)
    (buf : List Char) (size : Nat) (offset : Int) (fi : fuse_file_info) : Int × Driver W :=
  let r := st.call sys (.pwrite fi.fh buf size offset)
  (log_syscall r.1.errno r.1.ret 0, r.2)

/-- The function `kvfs_statfs_impl`; no result when `root` is `NULL`. -/
def kvfs_statfs_impl {W : Type} (sys : Sys W) (st : Driver W) (path : CString) :
    Option (Int × Driver W) :=
  match st.root with
  | none => none
  | some root =>
    let r := st.call sys (.statvfs (root_or_inside root st.rootdir path))
    some (log_syscall r.1.errno r.1.ret 0, r.2)

/-- The function `kvfs_flush_impl`. -/
def kvfs_flush_impl {W : Type} (st : Driver W) (_path : CString) (_fi : fuse_file_info) :
    Int × Driver W :=
  (0, st)

/-- The function `kvfs_release_impl`. -/
def kvfs_release_impl {W : Type} (sys : Sys W) (st : Driver W) (_path : CString)
    (fi : fuse_file_info) : Int × Driver W :=
  let r := st.call sys (.close fi.fh)
  (log_syscall r.1.errno r.1.ret 0, r.2)

/-- The function `kvfs_fsync_impl`, compiled without `HAVE_FDATASYNC`. -/
def kvfs_fsync_impl {W : Type} (sys : Sys W) (st : Driver W) (_path : CString)
    (_datasync : Int) (fi : fuse_file_info) : Int × Driver W :=
  let r := st.call sys (.fsync fi.fh)
  (log_syscall r.1.errno r.1.ret 0, r.2)

/-- The function `kvfs_setxattr_impl` (under `HAVE_SYS_XATTR_H`). -/
def kvfs_setxattr_impl {W : Type} (sys : Sys W) (st : Driver W) (path name : CString)
    (value : List Char) (size : Nat) (flags : Int) : Int × Driver W :=
  let actual_path := real_path st.rootdir path
  let r := st.call sys (.lsetxattr actual_path name value size flags)
  (log_syscall r.1.errno r.1.ret 0, r.2)

/-- The function `kvfs_getxattr_impl` (under `HAVE_SYS_XATTR_H`). -/
def kvfs_getxattr_impl {W : Type} (sys : Sys W) (st : Driver W) (path name : CString)
    (size : Nat) : Int × List Char × Driver W :=
  let actual_path := real_path st.rootdir path
  let r := st.call sys (.lgetxattr actual_path name size)
  (log_syscall r.1.errno r.1.ret 0, r.1.data, r.2)

/-- The function `kvfs_listxattr_impl` (under `HAVE_SYS_XATTR_H`). -/
def kvfs_listxattr_impl {W : Type} (sys : Sys W) (st : Driver W) (path : CString)
    (size : Nat) : Int × List Char × Driver W :=
  let actual_path := real_path st.rootdir path
  let r := st.call sys (.llistxattr actual_path size)
  (log_syscall r.1.errno r.1.ret 0, r.1.data, r.2)

/-- The function `kvfs_removexattr_impl` (under `HAVE_SYS_XATTR_H`). -/
def kvfs_removexattr_impl {W : Type} (sys : Sys W) (st : Driver W) (path name : CString) :
    Int × Driver W :=
  let actual_path := real_path st.rootdir path
  let r := st.call sys (.lremovexattr actual_path name)
  (log_syscall r.1.errno r.1.ret 0, r.2)

/-- The function `kvfs_opendir_impl`; no result when `root` is `NULL`. -/
def kvfs_opendir_impl {W : Type} (sys : Sys W) (st : Driver W) (path : CString)
    (fi : fuse_file_info) : Option (Int × fuse_file_info × Driver W) :=
  match st.root with
  | none => none
  | some root =>
    let r := st.call sys (.opendir (root_or_inside root st.rootdir path))
    let dp := r.1.ret
    let retstat := if dp = 0 then log_error r.1.errno else 0
    some (retstat, { fi with fh := dp }, r.2)

/-- The type `fuse_fill_dir_t`, as a function of the buffer, the name and the
offset (the `stat` argument is always `NULL`): the value returned and the new
buffer. -/
abbrev Filler (B : Type) := B → CString → Int → Int × B

/-- The `do ... while ((de = readdir(dp)) != NULL)` loop of `kvfs_readdir_impl`,
entered with the entry name `d_name`. Every iteration but the last costs one
unit of `fuel`; no result when the fuel runs out. -/
def kvfs_readdir_loop {W B : Type} (sys : Sys W) (filler : Filler B) (dp : Int) :
    Nat → Driver W → B → CString → Option (Int × B × Driver W)
  | 0, _, _, _ => none
  | fuel + 1, st, buf, d_name =>
    if (filler buf d_name 0).1 ≠ 0 then some (-ENOMEM, (filler buf d_name 0).2, st)
    else
      let r := st.call sys (.readdir dp)
      if r.1.ret ≠ 0 then kvfs_readdir_loop sys filler dp fuel r.2 (filler buf d_name 0).2 r.1.data
      else some (0, (filler buf d_name 0).2, r.2)

/-- The function `kvfs_readdir_impl`; `path` and `offset` are not used. -/
def kvfs_readdir_impl {W B : Type} (sys : Sys W) (fuel : Nat) (st : Driver W)
    (_path : CString) (buf : B) (filler : Filler B) (_offset : Int) (fi : fuse_file_info) :
    Option (Int × B × Driver W) :=
  let dp := fi.fh
  let r := st.call sys (.readdir dp)
  if r.1.ret = 0 then some (log_error r.1.errno, buf, r.2)
  else kvfs_readdir_loop sys filler dp fuel r.2 buf r.1.data

/-- The function `kvfs_releasedir_impl`. -/
def kvfs_releasedir_impl {W : Type} (sys : Sys W) (st : Driver W) (_path : CString)
    (fi : fuse_file_info) : Int × Driver W :=
  let r := st.call sys (.closedir fi.fh)
  (0, r.2)

/-- The function `kvfs_fsyncdir_impl`. -/
def kvfs_fsyncdir_impl {W : Type} (st : Driver W) (_path : CString) (_datasync : Int)
    (_fi : fuse_file_info) : Int × Driver W :=
  (0, st)

/-- The block `if (first_run == 0) { ... }` of `kvfs_access_impl`. -/
def kvfs_access_first_run {W : Type} (md5 : List Char → Digest) (st : Driver W) : Driver W :=
  if st.first_run = 0 then
    { st with
      root := some { fileName := "/".toList,
                     hashedVal := str2md5 md5 "/".toList (size_t_to_int (strlen "/".toList)) },
      first_run := 1 }
  else st

/-- The function `kvfs_access_impl`; no result when `root` is `NULL` after the
first-run block. -/
def kvfs_access_impl {W : Type} (md5 : List Char → Digest) (sys : Sys W) (st : Driver W)
    (path : CString) (mask : Int) : Option (Int × Driver W) :=
  let st1 := kvfs_access_first_run md5 st
  match st1.root with
  | none => none
  | some root =>
    let r := st1.call sys (.access (root_or_inside root st1.rootdir path) mask)
    let retstat := r.1.ret
    some (if retstat < 0 then log_error r.1.errno else retstat, r.2)

/-- The function `kvfs_ftruncate_impl`. -/
def kvfs_ftruncate_impl {W : Type} (sys : Sys W) (st : Driver W) (_path : CString)
    (offset : Int) (fi : fuse_file_info) : Int × Driver W :=
  let r := st.call sys (.ftruncate fi.fh offset)
  let retstat := r.1.ret
  (if retstat < 0 then log_error r.1.errno else retstat, r.2)

/-- The function `kvfs_fgetattr_impl`. -/
def kvfs_fgetattr_impl {W : Type} (sys : Sys W) (st : Driver W) (path : CString)
    (fi : fuse_file_info) : Option (Int × Driver W) :=
  if path = "/".toList then kvfs_getattr_impl sys st path
  else
    let r := st.call sys (.fstat fi.fh)
    let retstat := r.1.ret
    some (if retstat < 0 then log_error r.1.errno else retstat, r.2)

/-! ## The callbacks of kvfs.c

Each callback hashes its path arguments with `str2md5(path, strlen(path))` and
passes the keys to the function of kvfs_functions.c. -/

/-- The callback `kvfs_getattr`. -/
def kvfs_getattr {W : Type} (md5 : List Char → Digest) (sys : Sys W) (st : Driver W)
    (path : CString) : Option (Int × Driver W) :=
  kvfs_getattr_impl sys st (fingerprint md5 path)

/-- The callback `kvfs_readlink`. -/
def kvfs_readlink {W : Type} (md5 : List Char → Digest) (sys : Sys W) (st : Driver W)
    (path : CString) (link : List Char) (size : Nat) : Int × List Char × Driver W :=
  kvfs_readlink_impl sys st (fingerprint md5 path) link size

/-- The callback `kvfs_mknod`. -/
def kvfs_mknod {W : Type} (md5 : List Char → Digest) (sys : Sys W) (st : Driver W)
    (path : CString) (mode dev : Nat) : Int × Driver W :=
  kvfs_mknod_impl sys st (fingerprint md5 path) mode dev

/-- The callback `kvfs_mkdir`. -/
def kvfs_mkdir {W : Type} (md5 : List Char → Digest) (sys : Sys W) (st : Driver W)
    (path : CString) (mode : Nat) : Int × Driver W :=
  kvfs_mkdir_impl sys st (fingerprint md5 path) mode

/-- The callback `kvfs_unlink`. -/
def kvfs_unlink {W : Type} (md5 : List Char → Digest) (sys : Sys W) (st : Driver W)
    (path : CString) : Int × Driver W :=
  kvfs_unlink_impl sys st (fingerprint md5 path)

/-- The callback `kvfs_rmdir`. -/
def kvfs_rmdir {W : Type} (md5 : List Char → Digest) (sys : Sys W) (st : Driver W)
    (path : CString) : Int × Driver W :=
  kvfs_rmdir_impl sys st (fingerprint md5 path)

/-- The callback `kvfs_symlink`: both arguments are hashed. -/
def kvfs_symlink {W : Type} (md5 : List Char → Digest) (sys : Sys W) (st : Driver W)
    (path link : CString) : Int × Driver W :=
  kvfs_symlink_impl sys st (fingerprint md5 path) (fingerprint md5 link)

/-- The callback `kvfs_rename`. -/
def kvfs_rename {W : Type} (md5 : List Char → Digest) (sys : Sys W) (st : Driver W)
    (path newpath : CString) : Int × Driver W :=
  kvfs_rename_impl sys st (fingerprint md5 path) (fingerprint md5 newpath)

/-- The callback `kvfs_link`. -/
def kvfs_link {W : Type} (md5 : List Char → Digest) (sys : Sys W) (st : Driver W)
    (path newpath : CString) : Int × Driver W :=
  kvfs_link_impl sys st (fingerprint md5 path) (fingerprint md5 newpath)

/-- The callback `kvfs_chmod`. -/
def kvfs_chmod {W : Type} (md5 : List Char → Digest) (sys : Sys W) (st : Driver W)
    (path : CString) (mode : Nat) : Int × Driver W :=
  kvfs_chmod_impl sys st (fingerprint md5 path) mode

/-- The callback `kvfs_chown`. -/
def kvfs_chown {W : Type} (md5 : List Char → Digest) (sys : Sys W) (st : Driver W)
    (path : CString) (uid gid : Nat) : Int × Driver W :=
  kvfs_chown_impl sys st (fingerprint md5 path) uid gid

/-- The callback `kvfs_truncate`. -/
def kvfs_truncate {W : Type} (md5 : List Char → Digest) (sys : Sys W) (st : Driver W)
    (path : CString) (newsize : Int) : Int × Driver W :=
  kvfs_truncate_impl sys st (fingerprint md5 path) newsize

/-- The callback `kvfs_utime`. -/
def kvfs_utime {W : Type} (md5 : List Char → Digest) (sys : Sys W) (st : Driver W)
    (path : CString) (actime modtime : Int) : Int × Driver W :=
  kvfs_utime_impl sys st (fingerprint md5 path) actime modtime

/-- The callback `kvfs_open`. -/
def kvfs_open {W : Type} (md5 : List Char → Digest) (sys : Sys W) (st : Driver W)
    (path : CString) (fi : fuse_file_info) : Int × fuse_file_info × Driver W :=
  kvfs_open_impl sys st (fingerprint md5 path) fi

/-- The callback `kvfs_read`. -/
def kvfs_read {W : Type} (md5 : List Char → Digest) (sys : Sys W) (st : Driver W)
    (path : CString) (size : Nat) (offset : Int) (fi : fuse_file_info) :
    Int × List Char × Driver W :=
  kvfs_read_impl sys st (fingerprint md5 path) size offset fi

/-- The callback `kvfs_write`. -/
def kvfs_write {W : Type} (md5 : List Char → Digest) (sys : Sys W) (st : Driver W)
    (path : CString) (buf : List Char) (size : Nat) (offset : Int) (fi : fuse_file_info) :
    Int × Driver W :=
  kvfs_write_impl sys st (fingerprint md5 path) buf size offset fi

/-- The callback `kvfs_statfs`. -/
def kvfs_statfs {W : Type} (md5 : List Char → Digest) (sys : Sys W) (st : Driver W)
    (path : CString) : Option (Int × Driver W) :=
  kvfs_statfs_impl sys st (fingerprint md5 path)

/-- The callback `kvfs_flush`. -/
def kvfs_flush {W : Type} (md5 : List Char → Digest) (st : Driver W)
    (path : CString) (fi : fuse_file_info) : Int × Driver W :=
  kvfs_flush_impl st (fingerprint md5 path) fi

/-- The callback `kvfs_release`. -/
def kvfs_release {W : Type} (md5 : List Char → Digest) (sys : Sys W) (st : Driver W)
    (path : CString) (fi : fuse_file_info) : Int × Driver W :=
  kvfs_release_impl sys st (fingerprint md5 path) fi

/-- The callback `kvfs_fsync`. -/
def kvfs_fsync {W : Type} (md5 : List Char → Digest) (sys : Sys W) (st : Driver W)
    (path : CString) (datasync : Int) (fi : fuse_file_info) : Int × Driver W :=
  kvfs_fsync_impl sys st (fingerprint md5 path) datasync fi

/-- The callback `kvfs_setxattr` (under `HAVE_SYS_XATTR_H`). -/
def kvfs_setxattr {W : Type} (md5 : List Char → Digest) (sys : Sys W) (st : Driver W)
    (path name : CString) (value : List Char) (size : Nat) (flags : Int) : Int × Driver W :=
  kvfs_setxattr_impl sys st (fingerprint md5 path) name value size flags

/-- The callback `kvfs_getxattr` (under `HAVE_SYS_XATTR_H`). -/
def kvfs_getxattr {W : Type} (md5 : List Char → Digest) (sys : Sys W) (st : Driver W)
    (path name : CString) (size : Nat) : Int × List Char × Driver W :=
  kvfs_getxattr_impl sys st (fingerprint md5 path) name size

/-- The callback `kvfs_listxattr` (under `HAVE_SYS_XATTR_H`). -/
def kvfs_listxattr {W : Type} (md5 : List Char → Digest) (sys : Sys W) (st : Driver W)
    (path : CString) (size : Nat) : Int × List Char × Driver W :=
  kvfs_listxattr_impl sys st (fingerprint md5 path) size

/-- The callback `kvfs_removexattr` (under `HAVE_SYS_XATTR_H`). -/
def kvfs_removexattr {W : Type} (md5 : List Char → Digest) (sys : Sys W) (st : Driver W)
    (path name : CString) : Int × Driver W :=
  kvfs_removexattr_impl sys st (fingerprint md5 path) name

/-- The callback `kvfs_opendir`. -/
def kvfs_opendir {W : Type} (md5 : List Char → Digest) (sys : Sys W) (st : Driver W)
    (path : CString) (fi : fuse_file_info) : Option (Int × fuse_file_info × Driver W) :=
  kvfs_opendir_impl sys st (fingerprint md5 path) fi

/-- The callback `kvfs_readdir`. -/
def kvfs_readdir {W B : Type} (md5 : List Char → Digest) (sys : Sys W) (fuel : Nat)
    (st : Driver W) (path : CString) (buf : B) (filler : Filler B) (offset : Int)
    (fi : fuse_file_info) : Option (Int × B × Driver W) :=
  kvfs_readdir_impl sys fuel st (fingerprint md5 path) buf filler offset fi

/-- The callback `kvfs_releasedir`. -/
def kvfs_releasedir {W : Type} (md5 : List Char → Digest) (sys : Sys W) (st : Driver W)
    (path : CString) (fi : fuse_file_info) : Int × Driver W :=
  kvfs_releasedir_impl sys st (fingerprint md5 path) fi

/-- The callback `kvfs_fsyncdir`. -/
def kvfs_fsyncdir {W : Type} (md5 : List Char → Digest) (st : Driver W)
    (path : CString) (datasync : Int) (fi : fuse_file_info) : Int × Driver W :=
  kvfs_fsyncdir_impl st (fingerprint md5 path) datasync fi

/-- The callback `kvfs_access`. -/
def kvfs_access {W : Type} (md5 : List Char → Digest) (sys : Sys W) (st : Driver W)
    (path : CString) (mask : Int) : Option (Int × Driver W) :=
  kvfs_access_impl md5 sys st (fingerprint md5 path) mask

/-- The callback `kvfs_ftruncate`. -/
def kvfs_ftruncate {W : Type} (md5 : List Char → Digest) (sys : Sys W) (st : Driver W)
    (path : CString) (offset : Int) (fi : fuse_file_info) : Int × Driver W :=
  kvfs_ftruncate_impl sys st (fingerprint md5 path) offset fi

/-- The callback `kvfs_fgetattr`. -/
def kvfs_fgetattr {W : Type} (md5 : List Char → Digest) (sys : Sys W) (st : Driver W)
    (path : CString) (fi : fuse_file_info) : Option (Int × Driver W) :=
  kvfs_fgetattr_impl sys st (fingerprint md5 path) fi

/-! ## The driver as a state machine -/

/-- One request of the kernel: a callback of `kvfs_oper` with its arguments. -/
inductive Op where
  | getattr (path : CString)
  | readlink (path : CString) (link : List Char) (size : Nat)
  | mknod (path : CString) (mode dev : Nat)
  | mkdir (path : CString) (mode : Nat)
  | unlink (path : CString)
  | rmdir (path : CString)
  | symlink (path link : CString)
  | rename (path newpath : CString)
  | link (path newpath : CString)
  | chmod (path : CString) (mode : Nat)
  | chown (path : CString) (uid gid : Nat)
  | truncate (path : CString) (newsize : Int)
  | utime (path : CString) (actime modtime : Int)
  | open_ (path : CString) (fi : fuse_file_info)
  | read (path : CString) (size : Nat) (offset : Int) (fi : fuse_file_info)
  | write (path : CString) (buf : List Char) (size : Nat) (offset : Int) (fi : fuse_file_info)
  | statfs (path : CString)
  | flush (path : CString) (fi : fuse_file_info)
  | release (path : CString) (fi : fuse_file_info)
  | fsync (path : CString) (datasync : Int) (fi : fuse_file_info)
  | setxattr (path name : CString) (value : List Char) (size : Nat) (flags : Int)
  | getxattr (path name : CString) (size : Nat)
  | listxattr (path : CString) (size : Nat)
  | removexattr (path name : CString)
  | opendir (path : CString) (fi : fuse_file_info)
  | readdir (path : CString) (buf : List CString) (filler : Filler (List CString))
      (offset : Int) (fi : fuse_file_info) (fuel : Nat)
  | releasedir (path : CString) (fi : fuse_file_info)
  | fsyncdir (path : CString) (datasync : Int) (fi : fuse_file_info)
  | init
  | destroy
  | access (path : CString) (mask : Int)
  | ftruncate (path : CString) (offset : Int) (fi : fuse_file_info)
  | fgetattr (path : CString) (fi : fuse_file_info)

/-- The state after serving one request; no state when the callback does not
return (it dereferences `root` while `NULL`, or the fuel runs out). -/
def kvfs_step {W : Type} (md5 : List Char → Digest) (sys : Sys W) (st : Driver W) :
    Op → Option (Driver W)
  | .getattr path => (kvfs_getattr md5 sys st path).map (fun r => r.2)
  | .readlink path link size => some (kvfs_readlink md5 sys st path link size).2.2
  | .mknod path mode dev => some (kvfs_mknod md5 sys st path mode dev).2
  | .mkdir path mode => some (kvfs_mkdir md5 sys st path mode).2
  | .unlink path => some (kvfs_unlink md5 sys st path).2
  | .rmdir path => some (kvfs_rmdir md5 sys st path).2
  | .symlink path link => some (kvfs_symlink md5 sys st path link).2
  | .rename path newpath => some (kvfs_rename md5 sys st path newpath).2
  | .link path newpath => some (kvfs_link md5 sys st path newpath).2
  | .chmod path mode => some (kvfs_chmod md5 sys st path mode).2
  | .chown path uid gid => some (kvfs_chown md5 sys st path uid gid).2
  | .truncate path newsize => some (kvfs_truncate md5 sys st path newsize).2
  | .utime path actime modtime => some (kvfs_utime md5 sys st path actime modtime).2
  | .open_ path fi => some (kvfs_open md5 sys st path fi).2.2
  | .read path size offset fi => some (kvfs_read md5 sys st path size offset fi).2.2
  | .write path buf size offset fi => some (kvfs_write md5 sys st path buf size offset fi).2
  | .statfs path => (kvfs_statfs md5 sys st path).map (fun r => r.2)
  | .flush path fi => some (kvfs_flush md5 st path fi).2
  | .release path fi => some (kvfs_release md5 sys st path fi).2
  | .fsync path datasync fi => some (kvfs_fsync md5 sys st path datasync fi).2
  | .setxattr path name value size flags =>
      some (kvfs_setxattr md5 sys st path name value size flags).2
  | .getxattr path name size => some (kvfs_getxattr md5 sys st path name size).2.2
  | .listxattr path size => some (kvfs_listxattr md5 sys st path size).2.2
  | .removexattr path name => some (kvfs_removexattr md5 sys st path name).2
  | .opendir path fi => (kvfs_opendir md5 sys st path fi).map (fun r => r.2.2)
  | .readdir path buf filler offset fi fuel =>
      (kvfs_readdir md5 sys fuel st path buf filler offset fi).map (fun r => r.2.2)
  | .releasedir path fi => some (kvfs_releasedir md5 sys st path fi).2
  | .fsyncdir path datasync fi => some (kvfs_fsyncdir md5 st path datasync fi).2
  | .init => some st
  | .destroy => some st
  | .access path mask => (kvfs_access md5 sys st path mask).map (fun r => r.2)
  | .ftruncate path offset fi => some (kvfs_ftruncate md5 sys st path offset fi).2
  | .fgetattr path fi => (kvfs_fgetattr md5 sys st path fi).map (fun r => r.2)

/-- The states the driver can be in after serving requests from its start. -/
inductive Reachable {W : Type} (md5 : List Char → Digest) (sys : Sys W) (rootdir : CString)
    (w : W) : Driver W → Prop where
  | start : Reachable md5 sys rootdir w (Driver.initial rootdir w)
  | step (st st1 : Driver W) (op : Op) : Reachable md5 sys rootdir w st →
      kvfs_step md5 sys st op = some st1 → Reachable md5 sys rootdir w st1

/-- The root marker: the node that `kvfs_access_impl` builds on its first run. -/
def rootMarker (md5 : List Char → Digest) : ListNode :=
  { hashedVal := fingerprint md5 "/".toList, fileName := "/".toList }

/-- The Path Resolver as the specification words it (§4.2): the backing root
itself when the key of the path is the key of `/`, and `backingRoot/key`
otherwise. -/
def resolve (md5 : List Char → Digest) (rootdir path : CString) : CString :=
  if fingerprint md5 path = fingerprint md5 "/".toList then rootdir ++ "/".toList
  else rootdir ++ "/".toList ++ fingerprint md5 path

/-! ## A model of the host file system

The name space only: which objects exist, of which kind, and which directory
streams and descriptors are open. Contents, attributes and permissions are
not modelled, and symbolic links are not followed while walking a path. -/

/-- The kinds of object. -/
inductive Node where
  | file
  | dir
  | symlink (target : CString)
  | fifo
  | dev
  deriving DecidableEq

/-- The host: every object except `/`, under the list of its path components;
the open directory streams with the names not yet read; the open descriptors;
a counter for fresh handles; the current `errno`. -/
structure Host where
  nodes : List (List CString × Node)
  streams : List (Int × List CString)
  fds : List Int
  next : Nat
  errno : Int

/-- The pieces of a path between its separators, empty ones included. -/
def splitSlash : CString → List CString
  | [] => [[]]
  | c :: cs =>
    if c = '/' then [] :: splitSlash cs
    else match splitSlash cs with
      | [] => [[c]]
      | h :: t => (c :: h) :: t

/-- The components of a path: repeated and trailing separators do not count. -/
def components (p : CString) : List CString :=
  (splitSlash p).filter (fun s => s ≠ [])

/-- Error numbers of `<errno.h>` (Linux). -/
def ENOENT : Int := 2
def EBADF : Int := 9
def EBUSY : Int := 16
def EEXIST : Int := 17
def ENOTDIR : Int := 20
def EISDIR : Int := 21
def EINVAL : Int := 22
def ENOTEMPTY : Int := 39
def EPERM : Int := 1
def ENOTSUP : Int := 95

/-- A failing call: `-1` and `errno` set. -/
def Host.fail (h : Host) (e : Int) : SysRet × Host :=
  ({ ret := -1, errno := e, data := [] }, { h with errno := e })

/-- A call that succeeds with value `ret`, storing `data`; the host becomes `h1`. -/
def Host.done (h1 : Host) (ret : Int) (data : List Char) : SysRet × Host :=
  ({ ret := ret, errno := h1.errno, data := data }, h1)

/-- The object at a path, if any; the empty path is the directory `/`. -/
def Host.lookup (h : Host) (p : List CString) : Option Node :=
  if p = [] then some Node.dir
  else (h.nodes.find? (fun e => e.1 = p)).map (fun e => e.2)

/-- The names of the objects directly inside the directory `p`. -/
def Host.children (h : Host) (p : List CString) : List CString :=
  h.nodes.filterMap (fun e => if e.1 ≠ [] ∧ e.1.dropLast = p then e.1.getLast? else none)

/-- Take the object at `p` out of the name space. -/
def Host.erase (h : Host) (p : List CString) : Host :=
  { h with nodes := h.nodes.filter (fun e => e.1 ≠ p) }

/-- Creation of a new object at `p`. -/
def Host.create (h : Host) (p : List CString) (n : Node) : SysRet × Host :=
  match h.lookup p with
  | some _ => h.fail EEXIST
  | none =>
    match h.lookup p.dropLast with
    | none => h.fail ENOENT
    | some Node.dir => Host.done { h with nodes := h.nodes ++ [(p, n)] } 0 []
    | some _ => h.fail ENOTDIR

/-- The move that a successful `rename(o, n)` performs: whatever was at `n` goes,
and the object at `o`, with everything below it, goes to `n`. -/
def Host.move (h : Host) (o n : List CString) : Host :=
  let kept := h.nodes.filter (fun e => e.1 ≠ n)
  let moved := kept.map
    (fun e => if o.isPrefixOf e.1 then (n ++ e.1.drop o.length, e.2) else e)
  { h with nodes := moved }

/-- The call `rename`. -/
def Host.rename (h : Host) (o n : List CString) : SysRet × Host :=
  match h.lookup o with
  | none => h.fail ENOENT
  | some src =>
    if o = [] then h.fail EBUSY
    else if o = n then Host.done h 0 []
    else if o.isPrefixOf n then h.fail EINVAL
    else match h.lookup n.dropLast with
      | none => h.fail ENOENT
      | some Node.dir =>
        match h.lookup n with
        | none => Host.done (h.move o n) 0 []
        | some dst =>
          if src = Node.dir then
            if dst = Node.dir then
              if h.children n = [] then Host.done (h.move o n) 0 [] else h.fail ENOTEMPTY
            else h.fail ENOTDIR
          else if dst = Node.dir then h.fail EISDIR
          else Host.done (h.move o n) 0 []
      | some _ => h.fail ENOTDIR

/-- A call that only needs the object to exist. -/
def Host.touch (h : Host) (p : List CString) : SysRet × Host :=
  match h.lookup p with
  | none => h.fail ENOENT
  | some _ => Host.done h 0 []

/-- A call on an open descriptor. -/
def Host.onFd (h : Host) (fd : Int) (ret : Int) : SysRet × Host :=
  if fd ∈ h.fds then Host.done h ret [] else h.fail EBADF

/-- The next name of a directory stream, and the streams after reading it. -/
def Host.readStream (h : Host) (dp : Int) : SysRet × Host :=
  match h.streams.find? (fun s => s.1 = dp) with
  | none => ({ ret := 0, errno := EBADF, data := [] }, { h with errno := EBADF })
  | some (_, []) => ({ ret := 0, errno := h.errno, data := [] }, h)
  | some (_, name :: _) =>
    ({ ret := 1, errno := h.errno, data := name },
      { h with streams := h.streams.map (fun s => if s.1 = dp then (s.1, s.2.tail) else s) })

/-- A fresh descriptor. -/
def Host.openFd (h : Host) : SysRet × Host :=
  Host.done { h with fds := ((h.next : Int) + 3) :: h.fds, next := h.next + 1 }
    ((h.next : Int) + 3) []

/-- The call `open`: `O_CREAT` is `0o100` and `O_EXCL` is `0o200`. -/
def Host.open_ (h : Host) (p : List CString) (flags : Int) : SysRet × Host :=
  if flags.toNat &&& 0o100 ≠ 0 then
    match h.lookup p with
    | some _ => if flags.toNat &&& 0o200 ≠ 0 then h.fail EEXIST else h.openFd
    | none =>
      if (h.create p Node.file).1.ret < 0 then h.create p Node.file
      else (h.create p Node.file).2.openFd
  else
    match h.lookup p with
    | none => h.fail ENOENT
    | some _ => h.openFd

/-- The call `opendir`: a stream of `.`, `..` and the names in the directory. -/
def Host.opendir (h : Host) (p : List CString) : SysRet × Host :=
  match h.lookup p with
  | none => ({ ret := 0, errno := ENOENT, data := [] }, { h with errno := ENOENT })
  | some Node.dir =>
    Host.done
      { h with
        streams := ((h.next : Int) + 1, ".".toList :: "..".toList :: h.children p) :: h.streams,
        next := h.next + 1 }
      ((h.next : Int) + 1) []
  | some _ => ({ ret := 0, errno := ENOTDIR, data := [] }, { h with errno := ENOTDIR })

/-- How the host answers each call of the driver. -/
def Host.exec : Sys Host := fun c h =>
  match c with
  | .lstat path => h.touch (components path)
  | .readlink path bufsiz =>
    match h.lookup (components path) with
    | none => h.fail ENOENT
    | some (Node.symlink t) => Host.done h (t.take bufsiz).length (t.take bufsiz)
    | some _ => h.fail EINVAL
  | .open_ path flags _ => h.open_ (components path) flags
  | .close fd =>
    if fd ∈ h.fds then Host.done { h with fds := h.fds.filter (fun d => d ≠ fd) } 0 []
    else h.fail EBADF
  | .mkfifo path _ => h.create (components path) Node.fifo
  | .mknod path _ _ => h.create (components path) Node.dev
  | .mkdir path _ => h.create (components path) Node.dir
  | .unlink path =>
    match h.lookup (components path) with
    | none => h.fail ENOENT
    | some Node.dir => h.fail EISDIR
    | some _ => Host.done (h.erase (components path)) 0 []
  | .rmdir path =>
    if components path = [] then h.fail EBUSY
    else match h.lookup (components path) with
      | none => h.fail ENOENT
      | some Node.dir =>
        if h.children (components path) = [] then Host.done (h.erase (components path)) 0 []
        else h.fail ENOTEMPTY
      | some _ => h.fail ENOTDIR
  | .symlink target linkpath => h.create (components linkpath) (Node.symlink target)
  | .rename oldpath newpath => h.rename (components oldpath) (components newpath)
  | .link oldpath newpath =>
    match h.lookup (components oldpath) with
    | none => h.fail ENOENT
    | some Node.dir => h.fail EPERM
    | some n => h.create (components newpath) n
  | .chmod path _ => h.touch (components path)
  | .chown path _ _ => h.touch (components path)
  | .truncate path _ =>
    match h.lookup (components path) with
    | none => h.fail ENOENT
    | some Node.dir => h.fail EISDIR
    | some _ => Host.done h 0 []
  | .utime path _ _ => h.touch (components path)
  | .pread fd _ _ => h.onFd fd 0
  | .pwrite fd _ size _ => h.onFd fd size
  | .statvfs path => h.touch (components path)
  | .fsync fd => h.onFd fd 0
  | .lsetxattr path _ _ _ _ => if (h.touch (components path)).1.ret < 0 then h.fail ENOENT else h.fail ENOTSUP
  | .lgetxattr path _ _ => if (h.touch (components path)).1.ret < 0 then h.fail ENOENT else h.fail ENOTSUP
  | .llistxattr path _ => if (h.touch (components path)).1.ret < 0 then h.fail ENOENT else h.fail ENOTSUP
  | .lremovexattr path _ => if (h.touch (components path)).1.ret < 0 then h.fail ENOENT else h.fail ENOTSUP
  | .opendir path => h.opendir (components path)
  | .readdir dp => h.readStream dp
  | .closedir dp =>
    if (h.streams.find? (fun s => s.1 = dp)).isSome then
      Host.done { h with streams := h.streams.filter (fun s => s.1 ≠ dp) } 0 []
    else h.fail EBADF
  | .access path _ => h.touch (components path)
  | .ftruncate fd _ => h.onFd fd 0
  | .fstat fd => h.onFd fd 0

/-- A host that holds one empty directory, the backing directory `dir`, and
its ancestors. -/
def Host.fresh (dir : List CString) : Host :=
  { nodes := (List.range dir.length).map (fun i => (dir.take (i + 1), Node.dir)),
    streams := [], fds := [], next := 0, errno := 0 }

/-- The filler that appends the name to the buffer and asks for more. -/
def collect : Filler (List CString) := fun buf name _ => (0, buf ++ [name])

/-- A directory listing as the kernel requests it: `opendir`, one `readdir`
that takes every name, `releasedir`. The names are those handed to the filler. -/
def kvfs_list {W : Type} (md5 : List Char → Digest) (sys : Sys W) (fuel : Nat)
    (st : Driver W) (path : CString) : Option (Int × List CString × Driver W) :=
  (kvfs_opendir md5 sys st path { flags := 0, fh := 0 }).bind fun o =>
    if o.1 ≠ 0 then some (o.1, [], o.2.2)
    else (kvfs_readdir md5 sys fuel o.2.2 path [] collect 0 o.2.1).map fun rd =>
      (rd.1, rd.2.1, (kvfs_releasedir md5 sys rd.2.2 path o.2.1).2)

/-- An environment in which every call succeeds with 0 and changes nothing. -/
def okSys : Sys Unit := fun _ w => ({ ret := 0, errno := 0, data := [] }, w)

/-- The driver globals agree in two states. -/
def SameGlobals {W : Type} (st st1 : Driver W) : Prop :=
  st1.first_run = st.first_run ∧ st1.root = st.root ∧ st1.rootdir = st.rootdir

/-- A family of `2^129` different paths of 130 characters: `/` followed by 129
characters, each `a` or `b`. -/
def abPath (f : Fin 129 → Bool) : CString :=
  '/' :: List.ofFn (fun i => if f i then 'a' else 'b')

/-- The driver on the empty backing directory `/data`, as it starts. -/
def freshDriver : Driver Host :=
  Driver.initial "/data".toList (Host.fresh ["data".toList])

/-- The requests `access("/")`, `mknod("/foo")`, `rename("/foo", "/bar")` and a
listing of `/` on `freshDriver`: the four values returned and the names listed. -/
def renameScenario (md5 : List Char → Digest) (fuel : Nat) :
    Option (Int × Int × Int × Int × List CString) :=
  (kvfs_access md5 Host.exec freshDriver "/".toList 0).bind fun a =>
    (kvfs_list md5 Host.exec fuel
      (kvfs_rename md5 Host.exec
        (kvfs_mknod md5 Host.exec a.2 "/foo".toList 0o100644 0).2
        "/foo".toList "/bar".toList).2 "/".toList).map fun l =>
      (a.1, (kvfs_mknod md5 Host.exec a.2 "/foo".toList 0o100644 0).1,
        (kvfs_rename md5 Host.exec
          (kvfs_mknod md5 Host.exec a.2 "/foo".toList 0o100644 0).2
          "/foo".toList "/bar".toList).1, l.1, l.2.1)

/-- The requests `access("/")`, `mkdir("/a")`, `mknod("/a/b.txt")` and a listing
of `/a` on `freshDriver`: the four values returned and the names listed. -/
def listingScenario (md5 : List Char → Digest) (fuel : Nat) :
    Option (Int × Int × Int × Int × List CString) :=
  (kvfs_access md5 Host.exec freshDriver "/".toList 0).bind fun a =>
    (kvfs_list md5 Host.exec fuel
      (kvfs_mknod md5 Host.exec
        (kvfs_mkdir md5 Host.exec a.2 "/a".toList 0o755).2
        "/a/b.txt".toList 0o100644 0).2 "/a".toList).map fun l =>
      (a.1, (kvfs_mkdir md5 Host.exec a.2 "/a".toList 0o755).1,
        (kvfs_mknod md5 Host.exec
          (kvfs_mkdir md5 Host.exec a.2 "/a".toList 0o755).2
          "/a/b.txt".toList 0o100644 0).1, l.1, l.2.1)

/-- The driver on the backing directory `/data` after a first `access`, with
one regular file stored under the key of `/foo`. -/
def sampleState : Driver Host :=
  { first_run := 1, root := some (rootMarker sampleDigest), rootdir := "/data".toList,
    world :=
      { nodes := [(["data".toList], Node.dir),
                  (["data".toList, hexEncode (sampleDigest "/foo".toList)], Node.file)],
        streams := [], fds := [], next := 0, errno := 0 } }

/-! ## Directory streams and fillers, for `kvfs_readdir_impl` -/

/-- From the world `w`, the stream `dp` delivers exactly the names `names`, one
per `readdir` call, and then `NULL`. -/
def Delivers {W : Type} (sys : Sys W) (dp : Int) : W → List CString → Prop
  | w, [] => (sys (Syscall.readdir dp) w).1.ret = 0
  | w, name :: rest =>
    (sys (Syscall.readdir dp) w).1.ret ≠ 0 ∧ (sys (Syscall.readdir dp) w).1.data = name
      ∧ Delivers sys dp (sys (Syscall.readdir dp) w).2 rest

/-- A filler that keeps, as its buffer, the list of the calls it has received
(name and offset), and answers each call with `answer calls name`, a function
of the calls received before and of the name. -/
def recorder (answer : List (CString × Int) → CString → Int) :
    Filler (List (CString × Int)) :=
  fun calls name off => (answer calls name, calls ++ [(name, off)])

/-- An environment in which every call fails with `errno = e`: `-1` from the
calls that return an `int`, which is not `NULL` for a pointer. -/
def failSys (e : Int) : Sys Unit := fun _ w => ({ ret := -1, errno := e, data := [] }, w)

/-! ## `main` (kvfs.c) -/

/-- What `main` does to the outside, in order. -/
inductive MainEvent where
  | fprintf (text : String)
  | malloc
  | perror (text : String)
  | realpath (path : CString)
  | log_open
  | fuse_main (argv : List CString)
  deriving DecidableEq

/-- How `main` ends: it returns a value, the exit code, or it calls `abort`. -/
inductive Outcome where
  | returned (code : Int)
  | aborted
  deriving DecidableEq

/-- What `main` finds outside: the user ids, whether `malloc` returns `NULL`,
and the value `fuse_main` returns for the argument vector it is given. -/
structure MainEnv where
  getuid : Nat
  geteuid : Nat
  malloc_null : Bool
  fuse_main : List CString → Int

/-- The first character `s[0]` of a C string; the terminator when it is empty. -/
def firstChar (s : CString) : Char := s.headD NUL

/-- The function `kvfs_usage`. -/
def kvfs_usage : Outcome × List MainEvent :=
  (Outcome.aborted,
    [MainEvent.fprintf "usage:  kvfs [FUSE and mount options] rootDir mountPoint\n"])

/-- The function `main`; `argc` is the length of `argv`. -/
def main (env : MainEnv) (argv : List CString) : Outcome × List MainEvent :=
  let argc := argv.length
  if env.getuid = 0 ∨ env.geteuid = 0 then
    (Outcome.returned 1,
      [MainEvent.fprintf "Running KVFS as root opens unnacceptable security holes\n"])
  else
    let version := MainEvent.fprintf "Fuse library version %d.%d\n"
    if argc < 3 ∨ firstChar (argv.getD (argc - 2) []) = '-'
        ∨ firstChar (argv.getD (argc - 1) []) = '-' then
      (kvfs_usage.1, version :: kvfs_usage.2)
    else if env.malloc_null then
      (Outcome.aborted, [version, MainEvent.malloc, MainEvent.perror "main calloc"])
    else
      let argv1 := argv.take (argc - 2) ++ [argv.getD (argc - 1) []]
      let fuse_stat := env.fuse_main argv1
      (Outcome.returned fuse_stat,
        [version, MainEvent.malloc, MainEvent.realpath (argv.getD (argc - 2) []),
          MainEvent.log_open, MainEvent.fprintf "about to call fuse_main\n",
          MainEvent.fuse_main argv1, MainEvent.fprintf "fuse_main returned %d\n"])

/-- What a whole `readdir` over the names of a stream is to do with a recording
filler: one call per name, in order, with offset 0, until a call is answered
with a non-zero value, which ends it with `-ENOMEM`; 0 if none is. -/
def feed (answer : List (CString × Int) → CString → Int) :
    List (CString × Int) → List CString → Int × List (CString × Int)
  | calls, [] => (0, calls)
  | calls, name :: rest =>
    if answer calls name ≠ 0 then (-ENOMEM, calls ++ [(name, 0)])
    else feed answer (calls ++ [(name, 0)]) rest

/-- A host whose only open directory stream, with handle 1, still holds the
names `a` and `b`. -/
def streamHost : Host :=
  { nodes := [], streams := [(1, ["a".toList, "b".toList])], fds := [], next := 1, errno := 0 }

/-! ## Lemmas on `str2md5` -/

theorem str2md5_loop_join (c : MD5_CTX) (str : List Char) (length : Int)
    (h : length ≤ str.length) :
    (str2md5_loop c str length).flatten = c.flatten ++ str.take length.toNat := by
  generalize hn : length.toNat = n
  induction n using Nat.strong_induction_on generalizing c str length with
  | _ n ih =>
    subst hn
    rw [str2md5_loop]
    split
    · rename_i hpos
      have hrec := ih (length - 512).toNat (by omega)
        (if length > 512 then MD5_Update c str 512 else MD5_Update c str length.toNat)
        (str.drop 512) (length - 512) (by simp; omega) rfl
      simp only [] at hrec ⊢
      rw [hrec]
      split
      · rename_i hbig
        have e : length.toNat = 512 + (length - 512).toNat := by omega
        simp [MD5_Update, List.flatten_append, e, List.take_add]
      · rename_i hsmall
        have e : (length - 512).toNat = 0 := by omega
        simp [MD5_Update, e]
    · rename_i hneg
      have e : length.toNat = 0 := by omega
      simp [e]

theorem str2md5_loop_length (c : MD5_CTX) (str : List Char) (length : Int) :
    (str2md5_loop c str length).length = c.length + (length.toNat + 511) / 512 := by
  generalize hn : length.toNat = n
  induction n using Nat.strong_induction_on generalizing c str length with
  | _ n ih =>
    subst hn
    rw [str2md5_loop]
    split
    · rename_i hpos
      have hrec := ih (length - 512).toNat (by omega)
        (if length > 512 then MD5_Update c str 512 else MD5_Update c str length.toNat)
        (str.drop 512) (length - 512) rfl
      simp only [] at hrec ⊢
      rw [hrec]
      have hc : (if length > 512 then MD5_Update c str 512
          else MD5_Update c str length.toNat).length = c.length + 1 := by
        split <;> simp [MD5_Update]
      rw [hc]
      omega
    · rename_i hneg
      have e : length.toNat = 0 := by omega
      simp [e]

theorem str2md5_loop_blocks (c : MD5_CTX) (str : List Char) (length : Int)
    (h : length ≤ str.length) :
    ∀ b ∈ str2md5_loop c str length, b ∈ c ∨ (0 < b.length ∧ b.length ≤ 512) := by
  generalize hn : length.toNat = n
  induction n using Nat.strong_induction_on generalizing c str length with
  | _ n ih =>
    subst hn
    rw [str2md5_loop]
    split
    · rename_i hpos
      have hrec := ih (length - 512).toNat (by omega)
        (if length > 512 then MD5_Update c str 512 else MD5_Update c str length.toNat)
        (str.drop 512) (length - 512) (by simp; omega) rfl
      simp only [] at hrec ⊢
      intro b hb
      rcases hrec b hb with hb1 | hb1
      · split at hb1
        · simp only [MD5_Update, List.mem_append, List.mem_singleton] at hb1
          rcases hb1 with hb1 | hb1
          · exact Or.inl hb1
          · right; subst hb1; simp; omega
        · simp only [MD5_Update, List.mem_append, List.mem_singleton] at hb1
          rcases hb1 with hb1 | hb1
          · exact Or.inl hb1
          · right; subst hb1; simp; omega
      · exact Or.inr hb1
    · intro b hb
      exact Or.inl hb

theorem hexDigit_mem (d : Nat) : hexDigit d ∈ "0123456789abcdef".toList := by
  unfold hexDigit
  by_cases h : d < 16
  · interval_cases d <;> decide
  · have : "0123456789abcdef".toList.length ≤ d := by
      have : "0123456789abcdef".toList.length = 16 := by decide
      omega
    rw [List.getD_eq_default _ _ this]
    decide

theorem hexDigit_ne_NUL (d : Nat) : hexDigit d ≠ NUL := by
  intro h
  have := hexDigit_mem d
  rw [h] at this
  revert this
  decide

theorem poke3_append (pre : List Char) (t0 t1 t2 : Char) (rest : List Char) (a b c : Char) :
    poke (pre ++ t0 :: t1 :: t2 :: rest) pre.length [a, b, c] = pre ++ a :: b :: c :: rest := by
  have e : pre.length + 1 + 1 - pre.length = 2 := by omega
  simp [poke, List.set_append, e]
  omega

theorem snprintf_02x_append (pre : List Char) (t0 t1 t2 : Char) (rest : List Char)
    (v : Fin 256) :
    snprintf_02x (pre ++ t0 :: t1 :: t2 :: rest) pre.length (16 * 2) v
      = pre ++ fmt_02x v ++ NUL :: rest := by
  simp only [snprintf_02x, fmt_02x]
  simp only [show (16 * 2 = 0) = False from by simp, if_false]
  simpa using poke3_append pre t0 t1 t2 rest _ _ NUL

theorem fmt_02x_length (v : Fin 256) : (fmt_02x v).length = 2 := rfl

theorem flatMap_fmt_length (l : List (Fin 16)) (d : Digest) :
    (l.flatMap (fun i => fmt_02x (d i))).length = 2 * l.length := by
  induction l with
  | nil => rfl
  | cons a l ih => simp [List.flatMap_cons, ih, fmt_02x_length]; omega

theorem str2md5_format_take (d : Digest) (buf : List Char) (h : buf.length = 33) (k : Nat)
    (hk : k ≤ 16) :
    ∃ T, ((List.finRange 16).take k).foldl
          (fun buf n => snprintf_02x buf (n.val * 2) (16 * 2) (d n)) buf
        = ((List.finRange 16).take k).flatMap (fun i => fmt_02x (d i)) ++ T
      ∧ T.length = 33 - 2 * k ∧ (0 < k → T.head? = some NUL) := by
  induction k with
  | zero => exact ⟨buf, by simp, by simpa using h, by simp⟩
  | succ k ih =>
    obtain ⟨T, hT, hlen, _⟩ := ih (by omega)
    have hget : (List.finRange 16)[k]? = some ⟨k, by omega⟩ := by
      rw [List.getElem?_eq_getElem (by simp; omega)]
      simp
    rw [List.take_succ, hget]
    simp only [Option.toList_some, List.foldl_append, List.foldl_cons, List.foldl_nil, hT,
      List.flatMap_append, List.flatMap_cons, List.flatMap_nil, List.append_nil]
    match T, hlen with
    | t0 :: t1 :: t2 :: rest, hlen =>
      refine ⟨NUL :: rest, ?_, ?_, ?_⟩
      · have hpre : (((List.finRange 16).take k).flatMap (fun i => fmt_02x (d i))).length
            = k * 2 := by
          rw [flatMap_fmt_length]; simp; omega
        have := snprintf_02x_append
          (((List.finRange 16).take k).flatMap (fun i => fmt_02x (d i)))
          t0 t1 t2 rest (d ⟨k, by omega⟩)
        rw [hpre] at this
        simpa using this
      · simp at hlen ⊢; omega
      · simp
    | [], hlen => simp at hlen; omega
    | [_], hlen => simp at hlen; omega
    | [_, _], hlen => simp at hlen; omega

theorem str2md5_format_eq (d : Digest) (buf : List Char) (h : buf.length = 33) :
    str2md5_format d buf = hexEncode d ++ [NUL] := by
  obtain ⟨T, hT, hlen, hhead⟩ := str2md5_format_take d buf h 16 (le_refl _)
  have h16 : (List.finRange 16).take 16 = List.finRange 16 := by
    apply List.take_of_length_le; simp
  rw [h16] at hT
  unfold str2md5_format hexEncode
  rw [hT]
  match T, hlen, hhead (by decide) with
  | [t], _, hh =>
    simp at hh
    rw [hh]

theorem fmt_02x_no_NUL (v : Fin 256) : ∀ c ∈ fmt_02x v, c ≠ NUL := by
  intro c hc
  simp only [fmt_02x, List.mem_cons, List.mem_singleton, List.not_mem_nil, or_false] at hc
  rcases hc with hc | hc <;> rw [hc] <;> exact hexDigit_ne_NUL _

theorem hexEncode_no_NUL (d : Digest) : ∀ c ∈ hexEncode d, c ≠ NUL := by
  intro c hc
  simp only [hexEncode, List.mem_flatMap] at hc
  obtain ⟨i, _, hi⟩ := hc
  exact fmt_02x_no_NUL _ c hi

theorem cstr_append_NUL (s rest : List Char) (h : ∀ c ∈ s, c ≠ NUL) :
    cstr (s ++ NUL :: rest) = s := by
  unfold cstr
  induction s with
  | nil => simp [List.takeWhile]
  | cons a s ih =>
    have ha : a ≠ NUL := h a (List.mem_cons_self _ _)
    have hs := ih (fun c hc => h c (List.mem_cons_of_mem _ hc))
    simp only [List.cons_append, List.takeWhile, ha, ne_eq, not_false_eq_true, decide_True]
    exact congrArg (List.cons a) hs

/-- The string returned by `str2md5` is the hexadecimal rendering of the digest. -/
theorem str2md5_eq_hexEncode (md5 : List Char → Digest) (str : List Char) (length : Int) :
    str2md5 md5 str length = hexEncode (str2md5_digest md5 str length) := by
  unfold str2md5
  rw [str2md5_format_eq _ _ (by simp [malloc])]
  exact cstr_append_NUL _ _ (hexEncode_no_NUL _)

theorem hexEncode_length (d : Digest) : (hexEncode d).length = 32 := by
  unfold hexEncode
  rw [flatMap_fmt_length]; simp

theorem str2md5_loop_append (c : MD5_CTX) (str : List Char) (length : Int) :
    str2md5_loop c str length = c ++ str2md5_loop [] str length := by
  generalize hn : length.toNat = n
  induction n using Nat.strong_induction_on generalizing c str length with
  | _ n ih =>
    subst hn
    rw [str2md5_loop, str2md5_loop.eq_def [] str length]
    split
    · rename_i hpos
      simp only []
      rw [ih (length - 512).toNat (by omega) _ (str.drop 512) (length - 512) rfl,
        ih (length - 512).toNat (by omega)
          (if length > 512 then MD5_Update [] str 512 else MD5_Update [] str length.toNat)
          (str.drop 512) (length - 512) rfl]
      split <;> simp [MD5_Update]
    · simp

theorem str2md5_loop_getElem? (str : List Char) (length : Int) (i : Nat)
    (hi : i < (length.toNat + 511) / 512) :
    (str2md5_loop [] str length)[i]?
      = some (((str.take length.toNat).drop (512 * i)).take 512) := by
  induction i generalizing str length with
  | zero =>
    rw [str2md5_loop]
    have hpos : length > 0 := by
      by_contra hc
      have : length.toNat = 0 := by omega
      rw [this] at hi; simp at hi
    simp only [hpos, if_true]
    rw [str2md5_loop_append]
    split
    · rename_i hbig
      have : min 512 length.toNat = 512 := by omega
      simp [MD5_Update, List.take_take, this]
    · rename_i hsmall
      have : min 512 length.toNat = length.toNat := by omega
      simp [MD5_Update, List.take_take, this]
  | succ i ih =>
    rw [str2md5_loop]
    have hpos : length > 0 := by
      by_contra hc
      have : length.toNat = 0 := by omega
      rw [this] at hi; simp at hi
    simp only [hpos, if_true]
    rw [str2md5_loop_append]
    have hlen : (if length > 512 then MD5_Update [] str 512
        else MD5_Update [] str length.toNat).length = 1 := by
      split <;> simp [MD5_Update]
    rw [List.getElem?_append_right (by omega), hlen]
    have hi2 : i < ((length - 512).toNat + 511) / 512 := by omega
    have := ih (str.drop 512) (length - 512) hi2
    simp only [Nat.add_sub_cancel] at this ⊢
    rw [this]
    have e2 : (length - 512).toNat = length.toNat - 512 := by omega
    have hd : List.take (length - 512).toNat (List.drop 512 str)
        = List.drop 512 (List.take length.toNat str) := by
      rw [List.drop_take, e2]
    rw [hd, List.drop_drop]
    rw [show 512 + 512 * i = 512 * (i + 1) from by ring]

theorem str2md5_digest_eq (md5 : List Char → Digest) (str : List Char) (length : Int)
    (h : length ≤ str.length) :
    str2md5_digest md5 str length = md5 (str.take length.toNat) := by
  unfold str2md5_digest MD5_Final
  rw [str2md5_loop_join _ _ _ h]
  simp [MD5_Init]

/-- C1: for `n ≤ len(str)` (any `n ≥ 0`, and also a negative `n`, which feeds
nothing) the blocks that `str2md5(str, n)` hands to
`MD5_Update` are the consecutive 512-character pieces of the first `n`
characters of `str` (block `i` is characters `512 i .. 512 i + 511` of that
prefix, the last one possibly shorter); there are `⌈n / 512⌉` of them, they
concatenate to exactly `str[0..n)`, and the result is the hexadecimal rendering
of the MD5 digest of `str[0..n)`. -/
theorem str2md5_feeds_prefix (md5 : List Char → Digest) (str : List Char) (n : Int)
    (hn : n ≤ str.length) :
    (str2md5_loop MD5_Init str n).flatten = str.take n.toNat
    ∧ (str2md5_loop MD5_Init str n).length = (n.toNat + 511) / 512
    ∧ (∀ i, i < (n.toNat + 511) / 512 →
        (str2md5_loop MD5_Init str n)[i]?
          = some (((str.take n.toNat).drop (512 * i)).take 512))
    ∧ (∀ b ∈ str2md5_loop MD5_Init str n, 0 < b.length ∧ b.length ≤ 512)
    ∧ str2md5 md5 str n = hexEncode (md5 (str.take n.toNat)) := by
  refine ⟨?_, ?_, ?_, ?_, ?_⟩
  · rw [str2md5_loop_join _ _ _ hn]; simp [MD5_Init]
  · rw [str2md5_loop_length]; simp [MD5_Init]
  · intro i hi
    exact str2md5_loop_getElem? str n i hi
  · intro b hb
    rcases str2md5_loop_blocks MD5_Init str n hn b hb with h | h
    · simp [MD5_Init] at h
    · exact h
  · rw [str2md5_eq_hexEncode, str2md5_digest_eq _ _ _ hn]

/-- Evaluation of `str2md5_feeds_prefix` on a string of 1024 characters, an
exact multiple of the block size: two blocks are fed. -/
theorem str2md5_feeds_prefix_witness :
    (1024 : Int) ≤ (List.replicate 1024 'x').length
    ∧ (str2md5_loop MD5_Init (List.replicate 1024 'x') 1024).length
        = ((1024 : Int).toNat + 511) / 512
    ∧ str2md5 sampleDigest (List.replicate 1024 'x') 1024
        = hexEncode (sampleDigest ((List.replicate 1024 'x').take (1024 : Int).toNat)) :=
  have hn : (1024 : Int) ≤ (List.replicate 1024 'x').length := by
    rw [List.length_replicate]; decide
  have h := str2md5_feeds_prefix sampleDigest (List.replicate 1024 'x') 1024 hn
  ⟨hn, h.2.1, h.2.2.2.2⟩

theorem hexEncode_getElem? (d : Digest) (i : Fin 16) :
    (hexEncode d)[2 * i.val]? = some (hexDigit ((d i).val / 16))
    ∧ (hexEncode d)[2 * i.val + 1]? = some (hexDigit ((d i).val % 16)) := by
  have h : hexEncode d = (List.finRange 16).flatMap (fun i => fmt_02x (d i)) := rfl
  have hsplit : List.finRange 16
      = (List.finRange 16).take i.val ++ i :: (List.finRange 16).drop (i.val + 1) := by
    have hget : (List.finRange 16)[i.val]? = some i := by
      rw [List.getElem?_eq_getElem (by simp)]
      simp
    conv_lhs => rw [← List.take_append_drop i.val (List.finRange 16)]
    rw [List.drop_eq_getElem_cons (by simp)]
    simp
  rw [h, hsplit, List.flatMap_append, List.flatMap_cons]
  have hpre : (((List.finRange 16).take i.val).flatMap (fun i => fmt_02x (d i))).length
      = 2 * i.val := by
    rw [flatMap_fmt_length]; simp
  constructor
  · rw [List.getElem?_append_right (by omega), hpre]
    simp [fmt_02x]
  · rw [List.getElem?_append_right (by omega), hpre]
    simp [fmt_02x]

theorem size_t_to_int_small (n : Nat) (h : n < 2 ^ 31) : size_t_to_int n = n := by
  unfold size_t_to_int Int.bmod
  have h1 : ((n : Int) % ((2 ^ 32 : Nat) : Int)) = n := by
    apply Int.emod_eq_of_lt
    · omega
    · norm_num; omega
  rw [h1]
  norm_num
  omega

/-- The key of a path shorter than `2^31` is the rendering of its MD5 digest. -/
theorem fingerprint_eq_hexEncode (md5 : List Char → Digest) (path : CString)
    (h : path.length < 2 ^ 31) : fingerprint md5 path = hexEncode (md5 path) := by
  unfold fingerprint strlen
  rw [size_t_to_int_small _ h, str2md5_eq_hexEncode, str2md5_digest_eq _ _ _ (le_refl _)]
  simp

/-- Every key has 32 characters. -/
theorem fingerprint_length (md5 : List Char → Digest) (path : CString) :
    (fingerprint md5 path).length = 32 := by
  unfold fingerprint
  rw [str2md5_eq_hexEncode, hexEncode_length]

/-- The string returned by `str2md5` has 32 characters, all hexadecimal digits. -/
theorem str2md5_key_shape (md5 : List Char → Digest) (str : List Char) (length : Int) :
    (str2md5 md5 str length).length = 32
    ∧ ∀ c ∈ str2md5 md5 str length, c ∈ "0123456789abcdef".toList := by
  rw [str2md5_eq_hexEncode]
  refine ⟨hexEncode_length _, ?_⟩
  intro c hc
  simp only [hexEncode, List.mem_flatMap] at hc
  obtain ⟨i, _, hi⟩ := hc
  simp only [fmt_02x, List.mem_cons, List.mem_singleton, List.not_mem_nil, or_false] at hi
  rcases hi with hi | hi <;> rw [hi] <;> exact hexDigit_mem _

/-- C2: `str2md5` is total and, for every input and every length argument,
returns 32 characters, each one of `0-9a-f`, where characters `2 i` and
`2 i + 1` render byte `i` of the digest left by `MD5_Final` as two lowercase
hexadecimal digits; for the empty path the key is the rendering of the MD5
digest of the empty message. -/
theorem str2md5_key_format (md5 : List Char → Digest) (str : List Char) (length : Int) :
    (str2md5 md5 str length).length = 32
    ∧ (∀ c ∈ str2md5 md5 str length, c ∈ "0123456789abcdef".toList)
    ∧ (∀ i : Fin 16,
        (str2md5 md5 str length)[2 * i.val]?
          = some (hexDigit ((str2md5_digest md5 str length i).val / 16))
        ∧ (str2md5 md5 str length)[2 * i.val + 1]?
          = some (hexDigit ((str2md5_digest md5 str length i).val % 16)))
    ∧ fingerprint md5 [] = hexEncode (md5 [])
    ∧ str2md5 md5 [] 0 = hexEncode (md5 []) := by
  refine ⟨(str2md5_key_shape md5 str length).1, (str2md5_key_shape md5 str length).2, ?_, ?_, ?_⟩
  · rw [str2md5_eq_hexEncode]
    exact fun i => hexEncode_getElem? _ i
  · exact fingerprint_eq_hexEncode md5 [] (by simp)
  · rw [str2md5_eq_hexEncode, str2md5_digest_eq _ _ _ (by simp)]
    simp

theorem hexDigit_inj : ∀ a b : Fin 16, hexDigit a.val = hexDigit b.val → a = b := by
  decide

theorem hexEncode_injective (d e : Digest) (h : hexEncode d = hexEncode e) : d = e := by
  funext i
  have hd := hexEncode_getElem? d i
  have he := hexEncode_getElem? e i
  rw [h] at hd
  have h1 : hexDigit ((d i).val / 16) = hexDigit ((e i).val / 16) :=
    Option.some.inj (hd.1.symm.trans he.1)
  have h2 : hexDigit ((d i).val % 16) = hexDigit ((e i).val % 16) :=
    Option.some.inj (hd.2.symm.trans he.2)
  have hdl := (d i).isLt
  have hel := (e i).isLt
  have q := hexDigit_inj ⟨(d i).val / 16, by omega⟩ ⟨(e i).val / 16, by omega⟩ h1
  have r := hexDigit_inj ⟨(d i).val % 16, by omega⟩ ⟨(e i).val % 16, by omega⟩ h2
  have q2 : (d i).val / 16 = (e i).val / 16 := congrArg Fin.val q
  have r2 : (d i).val % 16 = (e i).val % 16 := congrArg Fin.val r
  apply Fin.ext
  omega

theorem abPath_length (f : Fin 129 → Bool) : (abPath f).length = 130 := by
  unfold abPath
  rw [List.length_cons, List.length_ofFn]

theorem abPath_injective (f g : Fin 129 → Bool) (h : abPath f = abPath g) : f = g := by
  have h2 := List.ofFn_injective (List.cons.inj h).2
  funext i
  have h3 : (if f i = true then 'a' else 'b') = (if g i = true then 'a' else 'b') :=
    congrFun h2 i
  clear h h2
  cases hf : f i <;> cases hg : g i <;> rw [hf, hg] at h3 <;> first | rfl | exact absurd h3 (by decide)

/-- Whatever the digest function is, two different paths of 130 characters have
the same key. -/
theorem fingerprint_collision (md5 : List Char → Digest) :
    ∃ p q : CString, p.length = 130 ∧ q.length = 130 ∧ p ≠ q
      ∧ fingerprint md5 p = fingerprint md5 q := by
  have hcard : Fintype.card Digest < Fintype.card (Fin 129 → Bool) := by
    simp only [Fintype.card_fun, Fintype.card_fin, Fintype.card_bool]
    norm_num
  obtain ⟨f, g, hne, heq⟩ :=
    Fintype.exists_ne_map_eq_of_card_lt (fun f => md5 (abPath f)) hcard
  refine ⟨abPath f, abPath g, abPath_length f, abPath_length g, ?_, ?_⟩
  · intro h
    exact hne (abPath_injective f g h)
  · rw [fingerprint_eq_hexEncode _ _ (by rw [abPath_length]; norm_num),
      fingerprint_eq_hexEncode _ _ (by rw [abPath_length]; norm_num)]
    exact congrArg hexEncode heq

/-- C3 (as stated, refuted): no digest function makes the key injective on the
paths of at most `PATH_MAX` characters. -/
theorem fingerprint_not_injective :
    ¬ ∃ md5 : List Char → Digest, ∀ p q : CString,
        p.length ≤ PATH_MAX → q.length ≤ PATH_MAX → p ≠ q →
        fingerprint md5 p ≠ fingerprint md5 q := by
  rintro ⟨md5, hinj⟩
  obtain ⟨p, q, hp, hq, hne, heq⟩ := fingerprint_collision md5
  exact hinj p q (by rw [hp]; decide) (by rw [hq]; decide) hne heq

/-- C3 (amended): for paths of at most `PATH_MAX` characters the key determines
the MD5 digest of the whole path and nothing more: two paths have the same key
exactly when their digests are equal, so paths with different digests never
share a key. -/
theorem fingerprint_eq_iff_digest_eq (md5 : List Char → Digest) (p q : CString)
    (hp : p.length ≤ PATH_MAX) (hq : q.length ≤ PATH_MAX) :
    fingerprint md5 p = fingerprint md5 q ↔ md5 p = md5 q := by
  have hp2 : p.length < 2 ^ 31 := by unfold PATH_MAX at hp; omega
  have hq2 : q.length < 2 ^ 31 := by unfold PATH_MAX at hq; omega
  rw [fingerprint_eq_hexEncode _ _ hp2, fingerprint_eq_hexEncode _ _ hq2]
  exact ⟨hexEncode_injective _ _, congrArg hexEncode⟩

/-- Evaluation of `fingerprint_eq_iff_digest_eq` on the paths `/a` and `/b`. -/
theorem fingerprint_eq_iff_digest_eq_witness :
    "/a".toList.length ≤ PATH_MAX ∧ "/b".toList.length ≤ PATH_MAX
    ∧ (fingerprint sampleDigest "/a".toList = fingerprint sampleDigest "/b".toList
        ↔ sampleDigest "/a".toList = sampleDigest "/b".toList) :=
  ⟨by decide, by decide,
    fingerprint_eq_iff_digest_eq sampleDigest "/a".toList "/b".toList (by decide) (by decide)⟩

/-! ## Locations handed to the backing calls -/

theorem real_path_root (rootdir : CString) :
    real_path rootdir "/".toList = rootdir ++ "/".toList := by
  simp [real_path, strncat, PATH_MAX]

theorem real_path_inside_root_key (md5 : List Char → Digest) (rootdir p : CString) :
    real_path_inside_root rootdir (fingerprint md5 p)
      = rootdir ++ "/".toList ++ fingerprint md5 p := by
  have h : (fingerprint md5 p).length ≤ PATH_MAX := by
    rw [fingerprint_length]; unfold PATH_MAX; omega
  simp only [real_path_inside_root, strncat, List.take_of_length_le h]

theorem real_path_key (md5 : List Char → Digest) (rootdir p : CString) :
    real_path rootdir (fingerprint md5 p) = rootdir ++ fingerprint md5 p := by
  have h : (fingerprint md5 p).length ≤ PATH_MAX := by
    rw [fingerprint_length]; unfold PATH_MAX; omega
  simp only [real_path, strncat, List.take_of_length_le h]

theorem root_or_inside_eq_resolve (md5 : List Char → Digest) (rootdir p : CString) :
    root_or_inside (rootMarker md5) rootdir (fingerprint md5 p) = resolve md5 rootdir p := by
  simp only [root_or_inside, resolve, rootMarker]
  by_cases h : fingerprint md5 p = fingerprint md5 "/".toList
  · have h2 : fingerprint md5 "/".toList = fingerprint md5 p := h.symm
    simp only [h, eq_self_iff_true, if_true, real_path_root]
  · have h2 : ¬ fingerprint md5 "/".toList = fingerprint md5 p := fun e => h e.symm
    simp only [h, h2, if_false, real_path_inside_root_key]

theorem root_ne_hashed_root (md5 : List Char → Digest) (rootdir p : CString) :
    rootdir ++ "/".toList ≠ rootdir ++ "/".toList ++ fingerprint md5 p := by
  intro h
  have := congrArg List.length h
  simp [fingerprint_length] at this

theorem access_first_run_root {W : Type} (md5 : List Char → Digest) (st : Driver W)
    (hroot : st.root = some (rootMarker md5)) :
    (kvfs_access_first_run md5 st).root = some (rootMarker md5)
    ∧ (kvfs_access_first_run md5 st).rootdir = st.rootdir
    ∧ (kvfs_access_first_run md5 st).world = st.world := by
  unfold kvfs_access_first_run
  split
  · refine ⟨?_, rfl, rfl⟩
    simp only [rootMarker]
    unfold fingerprint
    rfl
  · exact ⟨hroot, rfl, rfl⟩

/-- C4: in a state where `root` holds the root marker, for every virtual path
`p` the one backing call of `getattr`, `statfs`, `opendir` and `access` is made
on `resolve p`: the backing root `rootdir ++ "/"` when the key of `p` is the
key of `/`, and `rootdir ++ "/" ++ key` otherwise. For `/` this is the backing
root, which differs from `rootdir/fingerprint("/")`. -/
theorem root_aware_ops_pass_resolve {W : Type} (md5 : List Char → Digest) (sys : Sys W)
    (st : Driver (W × List Syscall)) (p : CString) (mask : Int) (fi : fuse_file_info)
    (hroot : st.root = some (rootMarker md5)) :
    (∃ r st1, kvfs_getattr md5 (traced sys) st p = some (r, st1)
        ∧ st1.world.2 = st.world.2 ++ [Syscall.lstat (resolve md5 st.rootdir p)])
    ∧ (∃ r st1, kvfs_statfs md5 (traced sys) st p = some (r, st1)
        ∧ st1.world.2 = st.world.2 ++ [Syscall.statvfs (resolve md5 st.rootdir p)])
    ∧ (∃ r fi1 st1, kvfs_opendir md5 (traced sys) st p fi = some (r, fi1, st1)
        ∧ st1.world.2 = st.world.2 ++ [Syscall.opendir (resolve md5 st.rootdir p)])
    ∧ (∃ r st1, kvfs_access md5 (traced sys) st p mask = some (r, st1)
        ∧ st1.world.2 = st.world.2 ++ [Syscall.access (resolve md5 st.rootdir p) mask])
    ∧ resolve md5 st.rootdir "/".toList = st.rootdir ++ "/".toList
    ∧ resolve md5 st.rootdir "/".toList
        ≠ st.rootdir ++ "/".toList ++ fingerprint md5 "/".toList := by
  have hres : resolve md5 st.rootdir "/".toList = st.rootdir ++ "/".toList := by
    simp [resolve]
  refine ⟨?_, ?_, ?_, ?_, hres, ?_⟩
  · simp only [kvfs_getattr, kvfs_getattr_impl, hroot, root_or_inside_eq_resolve]
    exact ⟨_, _, rfl, rfl⟩
  · simp only [kvfs_statfs, kvfs_statfs_impl, hroot, root_or_inside_eq_resolve]
    exact ⟨_, _, rfl, rfl⟩
  · simp only [kvfs_opendir, kvfs_opendir_impl, hroot, root_or_inside_eq_resolve]
    exact ⟨_, _, _, rfl, rfl⟩
  · obtain ⟨h1, h2, h3⟩ := access_first_run_root md5 st hroot
    simp only [kvfs_access, kvfs_access_impl, h1, h2, root_or_inside_eq_resolve]
    refine ⟨_, _, rfl, ?_⟩
    simp only [Driver.call, traced, h3]
  · rw [hres]
    exact root_ne_hashed_root md5 st.rootdir "/".toList

/-- Evaluation of `root_aware_ops_pass_resolve` on the path `/a` with the
backing directory `/data`. -/
theorem root_aware_ops_pass_resolve_witness :
    (some (rootMarker sampleDigest) = some (rootMarker sampleDigest))
    ∧ ∃ r st1,
        kvfs_getattr sampleDigest (traced okSys)
          { first_run := 1, root := some (rootMarker sampleDigest),
            rootdir := "/data".toList, world := ((), []) } "/a".toList = some (r, st1)
        ∧ st1.world.2 = [] ++ [Syscall.lstat (resolve sampleDigest "/data".toList "/a".toList)] :=
  ⟨rfl, (root_aware_ops_pass_resolve sampleDigest okSys
    { first_run := 1, root := some (rootMarker sampleDigest),
      rootdir := "/data".toList, world := ((), []) } "/a".toList 0 { flags := 0, fh := 0 } rfl).1⟩

/-! ## The globals `first_run` and `root` -/

theorem readdir_loop_globals {W B : Type} (sys : Sys W) (filler : Filler B) (dp : Int)
    (fuel : Nat) (st : Driver W) (buf : B) (d_name : CString) (r : Int × B × Driver W)
    (h : kvfs_readdir_loop sys filler dp fuel st buf d_name = some r) :
    SameGlobals st r.2.2 := by
  induction fuel generalizing st buf d_name with
  | zero => simp [kvfs_readdir_loop] at h
  | succ fuel ih =>
    simp only [kvfs_readdir_loop] at h
    split at h
    · cases h; exact ⟨rfl, rfl, rfl⟩
    · split at h
      · have := ih _ _ _ h
        exact ⟨this.1, this.2.1, this.2.2⟩
      · cases h; exact ⟨rfl, rfl, rfl⟩

theorem getattr_impl_globals {W : Type} (sys : Sys W) (st : Driver W) (path : CString)
    (r : Int × Driver W) (h : kvfs_getattr_impl sys st path = some r) :
    SameGlobals st r.2 := by
  unfold kvfs_getattr_impl at h
  split at h
  · cases h
  · cases h; exact ⟨rfl, rfl, rfl⟩

/-- Every request leaves `rootdir` alone, and leaves `first_run` and `root`
alone unless it is the `access` that finds `first_run = 0`, which sets
`first_run = 1` and stores the root marker. -/
theorem kvfs_step_globals {W : Type} (md5 : List Char → Digest) (sys : Sys W)
    (st st1 : Driver W) (op : Op) (h : kvfs_step md5 sys st op = some st1) :
    SameGlobals st st1
    ∨ ((∃ path mask, op = Op.access path mask) ∧ st.first_run = 0 ∧ st1.first_run = 1
        ∧ st1.root = some (rootMarker md5) ∧ st1.rootdir = st.rootdir) := by
  cases op with
  | access path mask =>
    simp only [kvfs_step, kvfs_access, kvfs_access_impl, Option.map_eq_some'] at h
    obtain ⟨r, hr, rfl⟩ := h
    split at hr
    · cases hr
    · rename_i root hroot
      cases hr
      unfold kvfs_access_first_run at hroot ⊢
      by_cases h0 : st.first_run = 0
      · right
        rw [if_pos h0]
        refine ⟨⟨path, mask, rfl⟩, h0, rfl, ?_, rfl⟩
        simp only [Driver.call, rootMarker]
        unfold fingerprint
        rfl
      · left
        rw [if_neg h0]
        exact ⟨rfl, rfl, rfl⟩
  | getattr path =>
    simp only [kvfs_step, kvfs_getattr, Option.map_eq_some'] at h
    obtain ⟨r, hr, rfl⟩ := h
    exact Or.inl (getattr_impl_globals sys st _ r hr)
  | fgetattr path fi =>
    simp only [kvfs_step, kvfs_fgetattr, kvfs_fgetattr_impl, Option.map_eq_some'] at h
    obtain ⟨r, hr, rfl⟩ := h
    split at hr
    · exact Or.inl (getattr_impl_globals sys st _ r hr)
    · cases hr; exact Or.inl ⟨rfl, rfl, rfl⟩
  | statfs path =>
    simp only [kvfs_step, kvfs_statfs, kvfs_statfs_impl, Option.map_eq_some'] at h
    obtain ⟨r, hr, rfl⟩ := h
    split at hr
    · cases hr
    · cases hr; exact Or.inl ⟨rfl, rfl, rfl⟩
  | opendir path fi =>
    simp only [kvfs_step, kvfs_opendir, kvfs_opendir_impl, Option.map_eq_some'] at h
    obtain ⟨r, hr, rfl⟩ := h
    split at hr
    · cases hr
    · cases hr; exact Or.inl ⟨rfl, rfl, rfl⟩
  | readdir path buf filler offset fi fuel =>
    simp only [kvfs_step, kvfs_readdir, kvfs_readdir_impl, Option.map_eq_some'] at h
    obtain ⟨r, hr, rfl⟩ := h
    split at hr
    · cases hr; exact Or.inl ⟨rfl, rfl, rfl⟩
    · have := readdir_loop_globals sys filler _ fuel _ buf _ r hr
      exact Or.inl ⟨this.1, this.2.1, this.2.2⟩
  | mknod path mode dev =>
    simp only [kvfs_step, kvfs_mknod, kvfs_mknod_impl, Option.some.injEq] at h
    subst h
    left
    split
    · split <;> exact ⟨rfl, rfl, rfl⟩
    · split <;> exact ⟨rfl, rfl, rfl⟩
  | readlink path link size =>
    simp only [kvfs_step, kvfs_readlink, kvfs_readlink_impl, Option.some.injEq] at h
    subst h
    left
    split <;> exact ⟨rfl, rfl, rfl⟩
  | _ =>
    simp only [kvfs_step, Option.some.injEq] at h
    subst h
    exact Or.inl ⟨rfl, rfl, rfl⟩

theorem access_step_root {W : Type} (md5 : List Char → Digest) (sys : Sys W)
    (st st1 : Driver W) (path : CString) (mask : Int)
    (h : kvfs_step md5 sys st (Op.access path mask) = some st1) :
    st1.root = (kvfs_access_first_run md5 st).root := by
  simp only [kvfs_step, kvfs_access, kvfs_access_impl, Option.map_eq_some'] at h
  obtain ⟨r, hr, rfl⟩ := h
  split at hr
  · cases hr
  · cases hr; rfl

theorem access_first_run_zero {W : Type} (md5 : List Char → Digest) (st : Driver W)
    (h0 : st.first_run = 0) :
    (kvfs_access_first_run md5 st).root = some (rootMarker md5) := by
  unfold kvfs_access_first_run
  rw [if_pos h0]
  simp only [rootMarker]
  unfold fingerprint
  rfl

/-- In every reachable state either no `access` has been served (`first_run = 0`
and `root = NULL`) or `root` holds the root marker; `rootdir` never changes. -/
theorem reachable_globals {W : Type} (md5 : List Char → Digest) (sys : Sys W)
    (rootdir : CString) (w : W) (st : Driver W) (h : Reachable md5 sys rootdir w st) :
    ((st.first_run = 0 ∧ st.root = none)
      ∨ (st.first_run = 1 ∧ st.root = some (rootMarker md5)))
    ∧ st.rootdir = rootdir := by
  induction h with
  | start => exact ⟨Or.inl ⟨rfl, rfl⟩, rfl⟩
  | step st st1 op _ hstep ih =>
    rcases kvfs_step_globals md5 sys st st1 op hstep with ⟨h1, h2, h3⟩ | ⟨_, _, h1, h2, h3⟩
    · rw [h1, h2, h3]; exact ih
    · exact ⟨Or.inr ⟨h1, h2⟩, h3.trans ih.2⟩

/-- C5 (as stated, refuted): whatever the digest function, the root marker is
not present in every reachable state: it is absent in the state in which the
driver starts. -/
theorem root_marker_absent_at_start :
    ¬ ∃ md5 : List Char → Digest, ∀ st : Driver Unit,
        Reachable md5 okSys "/data".toList () st → st.root = some (rootMarker md5) := by
  rintro ⟨md5, h⟩
  have := h _ Reachable.start
  simp [Driver.initial] at this

/-- C5 (amended): the root marker is created lazily. In every reachable state
either no `access` has been served yet (`first_run = 0`, `root = NULL`) or
`root` holds the marker whose key is `fingerprint("/")`. A request changes
`root` only if it is an `access` served while `root` is `NULL`, which stores
the marker; once the marker is there every request leaves it as it is; and
after any served `access` it is there. -/
theorem root_marker_lazy {W : Type} (md5 : List Char → Digest) (sys : Sys W)
    (rootdir : CString) (w : W) (st : Driver W) (h : Reachable md5 sys rootdir w st) :
    ((st.first_run = 0 ∧ st.root = none)
      ∨ (st.first_run = 1 ∧ st.root = some (rootMarker md5)))
    ∧ (∀ op st1, kvfs_step md5 sys st op = some st1 →
        (st1.root = st.root
          ∨ ((∃ path mask, op = Op.access path mask) ∧ st.root = none
              ∧ st1.root = some (rootMarker md5)))
        ∧ (st.root = some (rootMarker md5) → st1.root = some (rootMarker md5))
        ∧ ((∃ path mask, op = Op.access path mask) → st1.root = some (rootMarker md5))) := by
  have hinv := (reachable_globals md5 sys rootdir w st h).1
  refine ⟨hinv, ?_⟩
  intro op st1 hstep
  have hinv1 := (reachable_globals md5 sys rootdir w st1
    (Reachable.step st st1 op h hstep)).1
  have hg := kvfs_step_globals md5 sys st st1 op hstep
  refine ⟨?_, ?_, ?_⟩
  · rcases hg with ⟨_, h2, _⟩ | ⟨hop, h0, _, h2, _⟩
    · exact Or.inl h2
    · rcases hinv with ⟨_, hn⟩ | ⟨h1, _⟩
      · exact Or.inr ⟨hop, hn, h2⟩
      · rw [h0] at h1; exact absurd h1 (by decide)
  · intro hroot
    rcases hg with ⟨_, h2, _⟩ | ⟨_, _, _, h2, _⟩
    · rw [h2]; exact hroot
    · exact h2
  · rintro ⟨path, mask, rfl⟩
    rw [access_step_root md5 sys st st1 path mask hstep]
    rcases hinv with ⟨h0, _⟩ | ⟨h1, hroot⟩
    · exact access_first_run_zero md5 st h0
    · unfold kvfs_access_first_run
      rw [if_neg (by rw [h1]; decide)]
      exact hroot

/-- Evaluation of `root_marker_lazy` on the state in which the driver starts. -/
theorem root_marker_lazy_witness :
    Reachable sampleDigest okSys "/data".toList () (Driver.initial "/data".toList ())
    ∧ (((Driver.initial "/data".toList ()).first_run = 0
          ∧ (Driver.initial "/data".toList ()).root = none)
        ∨ ((Driver.initial "/data".toList ()).first_run = 1
          ∧ (Driver.initial "/data".toList ()).root = some (rootMarker sampleDigest))) :=
  ⟨Reachable.start,
    (root_marker_lazy sampleDigest okSys "/data".toList () _ Reachable.start).1⟩

/-- Before any `access` has been served, `getattr`, `statfs` and `opendir` do
not return: they read `root->hashedVal` while `root` is `NULL`. -/
theorem root_aware_ops_before_access {W : Type} (md5 : List Char → Digest) (sys : Sys W)
    (rootdir : CString) (w : W) (p : CString) (fi : fuse_file_info) :
    kvfs_getattr md5 sys (Driver.initial rootdir w) p = none
    ∧ kvfs_statfs md5 sys (Driver.initial rootdir w) p = none
    ∧ kvfs_opendir md5 sys (Driver.initial rootdir w) p fi = none :=
  ⟨rfl, rfl, rfl⟩

/-- C8 (the code at the failing input): `open`, `chmod`, `chown`, `truncate`
and `utime` make their backing call on `rootdir ++ "/" ++ fingerprint(p)` for
every path `p`, without the root case of `getattr`, `statfs`, `opendir` and
`access`; for `p = "/"` this location is not `resolve("/")`, the backing
root. -/
theorem data_plane_ops_skip_root_case {W : Type} (md5 : List Char → Digest) (sys : Sys W)
    (st : Driver (W × List Syscall)) (p : CString) (mode uid gid : Nat)
    (newsize actime modtime : Int) (fi : fuse_file_info) :
    (kvfs_open md5 (traced sys) st p fi).2.2.world.2
        = st.world.2 ++ [Syscall.open_ (st.rootdir ++ "/".toList ++ fingerprint md5 p)
            fi.flags none]
    ∧ (kvfs_chmod md5 (traced sys) st p mode).2.world.2
        = st.world.2 ++ [Syscall.chmod (st.rootdir ++ "/".toList ++ fingerprint md5 p) mode]
    ∧ (kvfs_chown md5 (traced sys) st p uid gid).2.world.2
        = st.world.2 ++ [Syscall.chown (st.rootdir ++ "/".toList ++ fingerprint md5 p) uid gid]
    ∧ (kvfs_truncate md5 (traced sys) st p newsize).2.world.2
        = st.world.2
            ++ [Syscall.truncate (st.rootdir ++ "/".toList ++ fingerprint md5 p) newsize]
    ∧ (kvfs_utime md5 (traced sys) st p actime modtime).2.world.2
        = st.world.2
            ++ [Syscall.utime (st.rootdir ++ "/".toList ++ fingerprint md5 p) actime modtime]
    ∧ st.rootdir ++ "/".toList ++ fingerprint md5 "/".toList
        ≠ resolve md5 st.rootdir "/".toList := by
  refine ⟨?_, ?_, ?_, ?_, ?_, ?_⟩
  · simp only [kvfs_open, kvfs_open_impl, real_path_inside_root_key]; rfl
  · simp only [kvfs_chmod, kvfs_chmod_impl, real_path_inside_root_key]; rfl
  · simp only [kvfs_chown, kvfs_chown_impl, real_path_inside_root_key]; rfl
  · simp only [kvfs_truncate, kvfs_truncate_impl, real_path_inside_root_key]; rfl
  · simp only [kvfs_utime, kvfs_utime_impl, real_path_inside_root_key]; rfl
  · have hres : resolve md5 st.rootdir "/".toList = st.rootdir ++ "/".toList := by
      simp [resolve]
    rw [hres]
    exact fun h => root_ne_hashed_root md5 st.rootdir "/".toList h.symm

/-- C9 (the code at the failing input): the four extended-attribute functions
build their location with `real_path`, so their backing call is made on
`rootdir ++ fingerprint(p)`, without the separator; for every path this is
neither `resolve(p)` nor `rootdir ++ "/" ++ fingerprint(p)`. -/
theorem xattr_ops_drop_separator {W : Type} (md5 : List Char → Digest) (sys : Sys W)
    (st : Driver (W × List Syscall)) (p name : CString) (value : List Char) (size : Nat)
    (flags : Int) :
    (kvfs_setxattr md5 (traced sys) st p name value size flags).2.world.2
        = st.world.2
            ++ [Syscall.lsetxattr (st.rootdir ++ fingerprint md5 p) name value size flags]
    ∧ (kvfs_getxattr md5 (traced sys) st p name size).2.2.world.2
        = st.world.2 ++ [Syscall.lgetxattr (st.rootdir ++ fingerprint md5 p) name size]
    ∧ (kvfs_listxattr md5 (traced sys) st p size).2.2.world.2
        = st.world.2 ++ [Syscall.llistxattr (st.rootdir ++ fingerprint md5 p) size]
    ∧ (kvfs_removexattr md5 (traced sys) st p name).2.world.2
        = st.world.2 ++ [Syscall.lremovexattr (st.rootdir ++ fingerprint md5 p) name]
    ∧ st.rootdir ++ fingerprint md5 p ≠ resolve md5 st.rootdir p
    ∧ st.rootdir ++ fingerprint md5 p ≠ st.rootdir ++ "/".toList ++ fingerprint md5 p := by
  have hne : st.rootdir ++ fingerprint md5 p
      ≠ st.rootdir ++ "/".toList ++ fingerprint md5 p := by
    intro h
    have := congrArg List.length h
    simp at this
  refine ⟨?_, ?_, ?_, ?_, ?_, hne⟩
  · simp only [kvfs_setxattr, kvfs_setxattr_impl, real_path_key]; rfl
  · simp only [kvfs_getxattr, kvfs_getxattr_impl, real_path_key]; rfl
  · simp only [kvfs_listxattr, kvfs_listxattr_impl, real_path_key]; rfl
  · simp only [kvfs_removexattr, kvfs_removexattr_impl, real_path_key]; rfl
  · unfold resolve
    split
    · intro h
      have := congrArg List.length h
      simp [fingerprint_length] at this
    · exact hne

/-- C10 (the code at the failing input): `kvfs_symlink` hashes both arguments,
so the target handed to the backing `symlink` is `fingerprint(path)`, 32
hexadecimal characters, and not `path`; the link is made at
`rootdir ++ "/" ++ fingerprint(link)`. For the target `target.txt` the two
differ whatever the digest function. -/
theorem symlink_hashes_target {W : Type} (md5 : List Char → Digest) (sys : Sys W)
    (st : Driver (W × List Syscall)) (path link : CString) :
    (kvfs_symlink md5 (traced sys) st path link).2.world.2
        = st.world.2 ++ [Syscall.symlink (fingerprint md5 path)
            (st.rootdir ++ "/".toList ++ fingerprint md5 link)]
    ∧ (fingerprint md5 path).length = 32
    ∧ fingerprint md5 "target.txt".toList ≠ "target.txt".toList := by
  refine ⟨?_, fingerprint_length md5 path, ?_⟩
  · simp only [kvfs_symlink, kvfs_symlink_impl, real_path_inside_root_key]; rfl
  · intro h
    have := congrArg List.length h
    rw [fingerprint_length] at this
    revert this
    decide

/-! ## Paths on the host -/

theorem splitSlash_ne_nil (p : CString) : splitSlash p ≠ [] := by
  cases p with
  | nil => simp [splitSlash]
  | cons c cs =>
    unfold splitSlash
    split
    · simp
    · split <;> simp

theorem splitSlash_append_slash (a b : CString) :
    splitSlash (a ++ '/' :: b) = splitSlash a ++ splitSlash b := by
  induction a with
  | nil => simp [splitSlash]
  | cons c cs ih =>
    simp only [List.cons_append, splitSlash]
    split
    · simp [ih]
    · have ih2 : splitSlash (cs.append ('/' :: b)) = splitSlash cs ++ splitSlash b := ih
      rw [ih2]
      cases h : splitSlash cs with
      | nil => exact absurd h (splitSlash_ne_nil cs)
      | cons x xs => simp

theorem splitSlash_no_slash (k : CString) (h : '/' ∉ k) : splitSlash k = [k] := by
  induction k with
  | nil => simp [splitSlash]
  | cons c cs ih =>
    have hc : c ≠ '/' := fun e => h (by simp [e])
    have hcs : '/' ∉ cs := fun e => h (List.mem_cons_of_mem _ e)
    simp [splitSlash, hc, ih hcs]

theorem components_root (rootdir : CString) :
    components (rootdir ++ "/".toList) = components rootdir := by
  have : rootdir ++ "/".toList = rootdir ++ '/' :: [] := rfl
  rw [this]
  unfold components
  rw [splitSlash_append_slash]
  simp [splitSlash]

theorem components_inside (rootdir k : CString) (h : '/' ∉ k) (hk : k ≠ []) :
    components (rootdir ++ "/".toList ++ k) = components rootdir ++ [k] := by
  have : rootdir ++ "/".toList ++ k = rootdir ++ '/' :: k := by simp
  rw [this]
  unfold components
  rw [splitSlash_append_slash, splitSlash_no_slash k h]
  simp [hk]

theorem fingerprint_no_slash (md5 : List Char → Digest) (p : CString) :
    '/' ∉ fingerprint md5 p := by
  intro h
  unfold fingerprint at h
  have := (str2md5_key_shape md5 p (size_t_to_int (strlen p))).2 _ h
  revert this
  decide

theorem fingerprint_ne_nil (md5 : List Char → Digest) (p : CString) :
    fingerprint md5 p ≠ [] := by
  intro h
  have := fingerprint_length md5 p
  rw [h] at this
  simp at this

theorem components_key (md5 : List Char → Digest) (rootdir p : CString) :
    components (real_path_inside_root rootdir (fingerprint md5 p))
      = components rootdir ++ [fingerprint md5 p] := by
  rw [real_path_inside_root_key]
  exact components_inside rootdir _ (fingerprint_no_slash md5 p) (fingerprint_ne_nil md5 p)

theorem components_resolve (md5 : List Char → Digest) (rootdir p : CString) :
    components (resolve md5 rootdir p)
      = if fingerprint md5 p = fingerprint md5 "/".toList then components rootdir
        else components rootdir ++ [fingerprint md5 p] := by
  unfold resolve
  split
  · exact components_root rootdir
  · exact components_inside rootdir _ (fingerprint_no_slash md5 p) (fingerprint_ne_nil md5 p)

/-! ## Facts about the host model -/

theorem mem_children (h : Host) (d : List CString) (x : CString) :
    x ∈ h.children d ↔ ∃ e ∈ h.nodes, e.1 = d ++ [x] := by
  unfold Host.children
  rw [List.mem_filterMap]
  constructor
  · rintro ⟨e, he, hx⟩
    refine ⟨e, he, ?_⟩
    split at hx
    · rename_i hc
      have hl : x ∈ e.1.getLast? := by simp [hx]
      have := List.dropLast_append_getLast? x hl
      rw [hc.2] at this
      exact this.symm
    · cases hx
  · rintro ⟨e, he, hx⟩
    refine ⟨e, he, ?_⟩
    have h1 : e.1 ≠ [] := by rw [hx]; simp
    have h2 : e.1.dropLast = d := by rw [hx]; simp
    have h3 : e.1.getLast? = some x := by rw [hx]; simp
    rw [if_pos ⟨h1, h2⟩, h3]

theorem children_length_le (h : Host) (d : List CString) :
    (h.children d).length ≤ h.nodes.length := by
  unfold Host.children
  exact List.length_filterMap_le _ _

theorem lookup_nil (h : Host) : h.lookup [] = some Node.dir := by
  simp [Host.lookup]

theorem lookup_eq_some_mem (h : Host) (p : List CString) (n : Node) (hp : p ≠ [])
    (hl : h.lookup p = some n) : (p, n) ∈ h.nodes := by
  unfold Host.lookup at hl
  rw [if_neg hp] at hl
  simp only [Option.map_eq_some'] at hl
  obtain ⟨e, he, rfl⟩ := hl
  have h1 := List.mem_of_find?_eq_some he
  have h2 := List.find?_some he
  simp only [decide_eq_true_eq] at h2
  rw [← h2]
  exact h1

theorem lookup_eq_none (h : Host) (p : List CString) (hp : p ≠ []) :
    h.lookup p = none ↔ ∀ e ∈ h.nodes, e.1 ≠ p := by
  unfold Host.lookup
  rw [if_neg hp, Option.map_eq_none', List.find?_eq_none]
  simp only [decide_eq_true_eq]

theorem stream_pop (streams : List (Int × List CString)) (dp : Int) (s : Int × List CString)
    (h : streams.find? (fun s => s.1 = dp) = some s) :
    (streams.map (fun s => if s.1 = dp then (s.1, s.2.tail) else s)).find?
      (fun s => s.1 = dp) = some (dp, s.2.tail) := by
  induction streams with
  | nil => simp at h
  | cons a l ih =>
    simp only [List.find?_cons, List.map_cons] at h ⊢
    by_cases ha : a.1 = dp
    · simp only [ha, decide_True] at h
      cases h
      simp [ha]
    · simp only [ha, decide_False] at h
      simp only [ha, if_false, decide_False]
      exact ih h

theorem readStream_cons (h : Host) (dp : Int) (s : Int × List CString) (name : CString)
    (rest : List CString) (hs : h.streams.find? (fun s => s.1 = dp) = some s)
    (hn : s.2 = name :: rest) :
    (h.readStream dp).1.ret = 1 ∧ (h.readStream dp).1.data = name
    ∧ (h.readStream dp).2.streams.find? (fun s => s.1 = dp) = some (dp, rest)
    ∧ (h.readStream dp).2.nodes = h.nodes := by
  have hp := stream_pop h.streams dp s hs
  obtain ⟨a, b⟩ := s
  simp only at hn
  subst hn
  unfold Host.readStream
  rw [hs]
  exact ⟨rfl, rfl, hp, rfl⟩

theorem readStream_nil (h : Host) (dp : Int) (s : Int × List CString)
    (hs : h.streams.find? (fun s => s.1 = dp) = some s) (hn : s.2 = []) :
    (h.readStream dp).1.ret = 0 ∧ (h.readStream dp).2 = h := by
  obtain ⟨a, b⟩ := s
  simp only at hn
  subst hn
  unfold Host.readStream
  rw [hs]
  exact ⟨rfl, rfl⟩

theorem readdir_loop_collect (dp : Int) (rest : List CString) :
    ∀ (fuel : Nat) (st : Driver Host) (buf : List CString) (d : CString),
      st.world.streams.find? (fun s => s.1 = dp) = some (dp, rest) → rest.length < fuel →
      ∃ st1, kvfs_readdir_loop Host.exec collect dp fuel st buf d
          = some (0, buf ++ d :: rest, st1) := by
  induction rest with
  | nil =>
    intro fuel st buf d hs hf
    obtain ⟨f, rfl⟩ : ∃ f, fuel = f + 1 := ⟨fuel - 1, by simp at hf; omega⟩
    obtain ⟨h1, _⟩ := readStream_nil st.world dp _ hs rfl
    refine ⟨(st.call Host.exec (Syscall.readdir dp)).2, ?_⟩
    have hret : (st.call Host.exec (Syscall.readdir dp)).1.ret = 0 := h1
    simp only [kvfs_readdir_loop, collect, ne_eq, not_true_eq_false, if_false, hret]
  | cons n rest ih =>
    intro fuel st buf d hs hf
    obtain ⟨f, rfl⟩ : ∃ f, fuel = f + 1 := ⟨fuel - 1, by simp at hf; omega⟩
    obtain ⟨h1, h2, h3, _⟩ := readStream_cons st.world dp _ n rest hs rfl
    obtain ⟨st1, hst1⟩ := ih f (st.call Host.exec (Syscall.readdir dp)).2 (buf ++ [d]) n h3
      (by simp at hf; omega)
    refine ⟨st1, ?_⟩
    simp only [kvfs_readdir_loop, collect, ne_eq, not_true_eq_false, if_false]
    have hret : (st.call Host.exec (Syscall.readdir dp)).1.ret = 1 := h1
    have hdata : (st.call Host.exec (Syscall.readdir dp)).1.data = n := h2
    rw [hret, hdata]
    simp only [one_ne_zero, not_false_eq_true, if_true]
    rw [hst1]
    simp

theorem readdir_loop_subset (dp : Int) :
    ∀ (fuel : Nat) (rest : List CString) (st : Driver Host) (buf : List CString) (d : CString)
      (res : Int × List CString × Driver Host),
      st.world.streams.find? (fun s => s.1 = dp) = some (dp, rest) →
      kvfs_readdir_loop Host.exec collect dp fuel st buf d = some res →
      ∀ x ∈ res.2.1, x ∈ buf ∨ x = d ∨ x ∈ rest := by
  intro fuel
  induction fuel with
  | zero => intro rest st buf d res _ h; simp [kvfs_readdir_loop] at h
  | succ f ih =>
    intro rest st buf d res hs h x hx
    simp only [kvfs_readdir_loop, collect, ne_eq, not_true_eq_false, if_false] at h
    split at h
    · rename_i hret
      cases rest with
      | nil =>
        have := (readStream_nil st.world dp _ hs rfl).1
        exact absurd this hret
      | cons n rest =>
        obtain ⟨_, h2, h3, _⟩ := readStream_cons st.world dp _ n rest hs rfl
        have hdata : (st.call Host.exec (Syscall.readdir dp)).1.data = n := h2
        rw [hdata] at h
        rcases ih rest _ _ _ res h3 h x hx with hb | hb | hb
        · simp only [List.mem_append, List.mem_singleton] at hb
          rcases hb with hb | hb
          · exact Or.inl hb
          · exact Or.inr (Or.inl hb)
        · exact Or.inr (Or.inr (by simp [hb]))
        · exact Or.inr (Or.inr (List.mem_cons_of_mem _ hb))
    · cases h
      simp only [List.mem_append, List.mem_singleton] at hx
      rcases hx with hx | hx
      · exact Or.inl hx
      · exact Or.inr (Or.inl hx)

theorem readdir_impl_collect (fuel : Nat) (st : Driver Host) (p : CString) (offset : Int)
    (fi : fuse_file_info) (d : CString) (rest : List CString)
    (hs : st.world.streams.find? (fun s => s.1 = fi.fh) = some (fi.fh, d :: rest))
    (hf : rest.length < fuel) :
    ∃ st1, kvfs_readdir_impl Host.exec fuel st p [] collect offset fi
      = some (0, d :: rest, st1) := by
  obtain ⟨r1, r2, r3, _⟩ := readStream_cons st.world fi.fh _ d rest hs rfl
  have hret : (st.call Host.exec (Syscall.readdir fi.fh)).1.ret = 1 := r1
  have hdata : (st.call Host.exec (Syscall.readdir fi.fh)).1.data = d := r2
  obtain ⟨st1, hst1⟩ := readdir_loop_collect fi.fh rest fuel
    (st.call Host.exec (Syscall.readdir fi.fh)).2 [] d r3 hf
  refine ⟨st1, ?_⟩
  simp only [kvfs_readdir_impl, hret, hdata, one_ne_zero, if_false]
  rw [hst1]
  rfl

theorem readdir_impl_subset (fuel : Nat) (st : Driver Host) (p : CString) (offset : Int)
    (fi : fuse_file_info) (d : CString) (rest : List CString)
    (hs : st.world.streams.find? (fun s => s.1 = fi.fh) = some (fi.fh, d :: rest))
    (res : Int × List CString × Driver Host)
    (h : kvfs_readdir_impl Host.exec fuel st p [] collect offset fi = some res) :
    ∀ x ∈ res.2.1, x = d ∨ x ∈ rest := by
  obtain ⟨r1, r2, r3, _⟩ := readStream_cons st.world fi.fh _ d rest hs rfl
  have hret : (st.call Host.exec (Syscall.readdir fi.fh)).1.ret = 1 := r1
  have hdata : (st.call Host.exec (Syscall.readdir fi.fh)).1.data = d := r2
  simp only [kvfs_readdir_impl, hret, hdata, one_ne_zero, if_false] at h
  intro x hx
  rcases readdir_loop_subset fi.fh fuel rest _ [] d res r3 h x hx with hb | hb | hb
  · simp at hb
  · exact Or.inl hb
  · exact Or.inr hb

theorem opendir_dir (h : Host) (d : List CString) (hd : h.lookup d = some Node.dir) :
    (h.opendir d).1.ret = (h.next : Int) + 1
    ∧ (h.opendir d).2.streams
        = ((h.next : Int) + 1, ".".toList :: "..".toList :: h.children d) :: h.streams := by
  unfold Host.opendir
  rw [hd]
  exact ⟨rfl, rfl⟩

theorem opendir_not_dir (h : Host) (d : List CString) (hd : h.lookup d ≠ some Node.dir) :
    (h.opendir d).1.ret = 0 ∧ log_error (h.opendir d).1.errno ≠ 0 := by
  unfold Host.opendir
  split
  · refine ⟨rfl, ?_⟩
    show log_error ENOENT ≠ 0
    decide
  · rename_i hl; exact absurd hl hd
  · refine ⟨rfl, ?_⟩
    show log_error ENOTDIR ≠ 0
    decide

theorem kvfs_list_unfold (md5 : List Char → Digest) (fuel : Nat) (st : Driver Host)
    (q : CString) (hroot : st.root = some (rootMarker md5)) :
    kvfs_list md5 Host.exec fuel st q
      = if (if (st.call Host.exec (Syscall.opendir (resolve md5 st.rootdir q))).1.ret = 0
              then log_error (st.call Host.exec (Syscall.opendir (resolve md5 st.rootdir q))).1.errno
              else 0) ≠ 0
        then some ((if (st.call Host.exec (Syscall.opendir (resolve md5 st.rootdir q))).1.ret = 0
              then log_error (st.call Host.exec (Syscall.opendir (resolve md5 st.rootdir q))).1.errno
              else 0), [],
              (st.call Host.exec (Syscall.opendir (resolve md5 st.rootdir q))).2)
        else (kvfs_readdir_impl Host.exec fuel
              (st.call Host.exec (Syscall.opendir (resolve md5 st.rootdir q))).2
              (fingerprint md5 q) [] collect 0
              { flags := 0,
                fh := (st.call Host.exec (Syscall.opendir (resolve md5 st.rootdir q))).1.ret }).map
            fun rd => (rd.1, rd.2.1, (kvfs_releasedir md5 Host.exec rd.2.2 q
              { flags := 0,
                fh := (st.call Host.exec
                  (Syscall.opendir (resolve md5 st.rootdir q))).1.ret }).2) := by
  simp only [kvfs_list, kvfs_opendir, kvfs_opendir_impl, hroot, root_or_inside_eq_resolve,
    kvfs_readdir, Option.some_bind]

theorem call_opendir (st : Driver Host) (p : CString) :
    (st.call Host.exec (Syscall.opendir p)).1 = (st.world.opendir (components p)).1
    ∧ (st.call Host.exec (Syscall.opendir p)).2.world = (st.world.opendir (components p)).2
    ∧ (st.call Host.exec (Syscall.opendir p)).2.root = st.root
    ∧ (st.call Host.exec (Syscall.opendir p)).2.rootdir = st.rootdir :=
  ⟨rfl, rfl, rfl, rfl⟩

/-- A listing hands the filler nothing but `.`, `..` and the names of the
objects in the backing directory it opened. -/
theorem kvfs_list_subset (md5 : List Char → Digest) (fuel : Nat) (st : Driver Host)
    (q : CString) (hroot : st.root = some (rootMarker md5))
    (res : Int × List CString × Driver Host)
    (h : kvfs_list md5 Host.exec fuel st q = some res) :
    ∀ x ∈ res.2.1, x = ".".toList ∨ x = "..".toList
      ∨ x ∈ st.world.children (components (resolve md5 st.rootdir q)) := by
  intro x hx
  rw [kvfs_list_unfold md5 fuel st q hroot] at h
  obtain ⟨c1, c2, _, _⟩ := call_opendir st (resolve md5 st.rootdir q)
  by_cases hd : st.world.lookup (components (resolve md5 st.rootdir q)) = some Node.dir
  · obtain ⟨h1, h2⟩ := opendir_dir _ _ hd
    have hne : ¬ ((st.world.next : Int) + 1 = 0) := by omega
    rw [c1, h1] at h
    simp only [hne, if_false, ne_eq, not_true_eq_false] at h
    have hs : (st.call Host.exec
        (Syscall.opendir (resolve md5 st.rootdir q))).2.world.streams.find?
          (fun s => s.1 = (st.world.next : Int) + 1)
        = some ((st.world.next : Int) + 1, ".".toList :: "..".toList
            :: st.world.children (components (resolve md5 st.rootdir q))) := by
      rw [c2, h2]
      simp only [List.find?_cons, decide_True]
    simp only [Option.map_eq_some'] at h
    obtain ⟨rd, hrd, rfl⟩ := h
    rcases readdir_impl_subset fuel _ _ 0
        { flags := 0, fh := (st.world.next : Int) + 1 } _ _ hs _ hrd x hx with hb | hb
    · exact Or.inl hb
    · simp only [List.mem_cons] at hb
      rcases hb with hb | hb
      · exact Or.inr (Or.inl hb)
      · exact Or.inr (Or.inr hb)
  · obtain ⟨h1, h2⟩ := opendir_not_dir _ _ hd
    rw [c1, h1] at h
    simp only [if_true, ne_eq, h2, not_false_eq_true] at h
    cases h
    simp at hx

/-- With enough fuel, a listing of an existing backing directory returns 0
and hands the filler `.`, `..` and every name in that directory. -/
theorem kvfs_list_full (md5 : List Char → Digest) (fuel : Nat) (st : Driver Host)
    (q : CString) (hroot : st.root = some (rootMarker md5))
    (hd : st.world.lookup (components (resolve md5 st.rootdir q)) = some Node.dir)
    (hf : st.world.nodes.length + 2 ≤ fuel) :
    ∃ st1, kvfs_list md5 Host.exec fuel st q
      = some (0, ".".toList :: "..".toList
          :: st.world.children (components (resolve md5 st.rootdir q)), st1) := by
  rw [kvfs_list_unfold md5 fuel st q hroot]
  obtain ⟨c1, c2, _, _⟩ := call_opendir st (resolve md5 st.rootdir q)
  obtain ⟨h1, h2⟩ := opendir_dir _ _ hd
  have hne : ¬ ((st.world.next : Int) + 1 = 0) := by omega
  rw [c1, h1]
  simp only [hne, if_false, ne_eq, not_true_eq_false]
  have hs : (st.call Host.exec
      (Syscall.opendir (resolve md5 st.rootdir q))).2.world.streams.find?
        (fun s => s.1 = (st.world.next : Int) + 1)
      = some ((st.world.next : Int) + 1, ".".toList :: "..".toList
          :: st.world.children (components (resolve md5 st.rootdir q))) := by
    rw [c2, h2]
    simp only [List.find?_cons, decide_True]
  have hlen := children_length_le st.world (components (resolve md5 st.rootdir q))
  obtain ⟨st1, hst1⟩ := readdir_impl_collect fuel _ (fingerprint md5 q) 0
    { flags := 0, fh := (st.world.next : Int) + 1 } _ _ hs
    (by simp only [List.length_cons]; omega)
  rw [hst1]
  exact ⟨_, rfl⟩

theorem log_syscall_fail (h : Host) (e : Int) :
    log_syscall (h.fail e).1.errno (h.fail e).1.ret 0 = -e := by
  simp [Host.fail, log_syscall]

theorem create_cases (h : Host) (p : List CString) (n : Node) :
    ((h.create p n).1.ret = 0 ∧ (h.create p n).2 = { h with nodes := h.nodes ++ [(p, n)] }
        ∧ h.lookup p = none ∧ h.lookup p.dropLast = some Node.dir)
    ∨ ((h.create p n).1.ret = -1 ∧ 0 < (h.create p n).1.errno
        ∧ (h.create p n).2.nodes = h.nodes) := by
  unfold Host.create
  split
  · exact Or.inr ⟨rfl, (by decide : (0 : Int) < EEXIST), rfl⟩
  · rename_i hp
    split
    · exact Or.inr ⟨rfl, (by decide : (0 : Int) < ENOENT), rfl⟩
    · rename_i hd
      exact Or.inl ⟨rfl, rfl, hp, hd⟩
    · exact Or.inr ⟨rfl, (by decide : (0 : Int) < ENOTDIR), rfl⟩

theorem log_syscall_zero_of_neg (e : Int) (he : 0 < e) : log_syscall e (-1) 0 ≠ 0 := by
  simp [log_syscall]
  omega

/-- A `mkdir` that returns 0 has added one directory, named by the key of the
path, to the backing directory. -/
theorem mkdir_success (md5 : List Char → Digest) (st st1 : Driver Host) (p : CString)
    (mode : Nat) (h : kvfs_mkdir md5 Host.exec st p mode = (0, st1)) :
    st1.world.nodes = st.world.nodes
        ++ [(components st.rootdir ++ [fingerprint md5 p], Node.dir)]
    ∧ st.world.lookup (components st.rootdir) = some Node.dir
    ∧ st.world.lookup (components st.rootdir ++ [fingerprint md5 p]) = none
    ∧ SameGlobals st st1 := by
  simp only [kvfs_mkdir, kvfs_mkdir_impl, Driver.call, Host.exec, components_key,
    Prod.mk.injEq] at h
  obtain ⟨hr, rfl⟩ := h
  rcases create_cases st.world (components st.rootdir ++ [fingerprint md5 p]) Node.dir with
    ⟨_, h2, h3, h4⟩ | ⟨h1, h2, _⟩
  · rw [List.dropLast_concat] at h4
    simp only [h2]
    exact ⟨trivial, h4, h3, rfl, rfl, rfl⟩
  · rw [h1] at hr
    exact absurd hr (log_syscall_zero_of_neg _ h2)

/-- An `unlink` that returns 0 has removed the object named by the key of the
path from the backing directory. -/
theorem unlink_success (md5 : List Char → Digest) (st st1 : Driver Host) (p : CString)
    (h : kvfs_unlink md5 Host.exec st p = (0, st1)) :
    st1.world.nodes = st.world.nodes.filter
        (fun e => e.1 ≠ components st.rootdir ++ [fingerprint md5 p])
    ∧ SameGlobals st st1 := by
  simp only [kvfs_unlink, kvfs_unlink_impl, Driver.call, Host.exec, components_key,
    Prod.mk.injEq] at h
  obtain ⟨hr, rfl⟩ := h
  split at hr
  · rw [log_syscall_fail] at hr; exact absurd hr (by decide)
  · rw [log_syscall_fail] at hr; exact absurd hr (by decide)
  · rename_i hsplit
    simp only [hsplit]
    exact ⟨rfl, rfl, rfl, rfl⟩

/-- An `rmdir` that returns 0 has removed the directory named by the key of
the path from the backing directory. -/
theorem rmdir_success (md5 : List Char → Digest) (st st1 : Driver Host) (p : CString)
    (h : kvfs_rmdir md5 Host.exec st p = (0, st1)) :
    st1.world.nodes = st.world.nodes.filter
        (fun e => e.1 ≠ components st.rootdir ++ [fingerprint md5 p])
    ∧ SameGlobals st st1 := by
  simp only [kvfs_rmdir, kvfs_rmdir_impl, Driver.call, Host.exec, components_key,
    Prod.mk.injEq] at h
  have hne : ¬ (components st.rootdir ++ [fingerprint md5 p] = []) := by simp
  simp only [hne, if_false] at h
  obtain ⟨hr, rfl⟩ := h
  split at hr
  · rw [log_syscall_fail] at hr; exact absurd hr (by decide)
  · split at hr
    · rename_i h1 h2
      simp only [h1, h2, if_true]
      exact ⟨rfl, rfl, rfl, rfl⟩
    · rw [log_syscall_fail] at hr; exact absurd hr (by decide)
  · rw [log_syscall_fail] at hr; exact absurd hr (by decide)

theorem open_creat_excl (h : Host) (p : List CString) :
    ((h.open_ p O_CREAT_EXCL_WRONLY).1.ret = (h.next : Int) + 3
        ∧ (h.open_ p O_CREAT_EXCL_WRONLY).2
            = { h with nodes := h.nodes ++ [(p, Node.file)],
                       fds := ((h.next : Int) + 3) :: h.fds, next := h.next + 1 }
        ∧ h.lookup p = none ∧ h.lookup p.dropLast = some Node.dir)
    ∨ ((h.open_ p O_CREAT_EXCL_WRONLY).1.ret = -1
        ∧ 0 < (h.open_ p O_CREAT_EXCL_WRONLY).1.errno) := by
  have hc : O_CREAT_EXCL_WRONLY.toNat &&& 0o100 ≠ 0 := by decide
  have he : O_CREAT_EXCL_WRONLY.toNat &&& 0o200 ≠ 0 := by decide
  unfold Host.open_
  rw [if_pos hc]
  split
  · rw [if_pos he]
    exact Or.inr ⟨rfl, (by decide : (0 : Int) < EEXIST)⟩
  · rcases create_cases h p Node.file with ⟨h1, h2, h3, h4⟩ | ⟨h1, h2, _⟩
    · left
      rw [h1, h2]
      simp only [lt_self_iff_false, if_false]
      exact ⟨rfl, rfl, h3, h4⟩
    · right
      rw [h1]
      simp only [Int.reduceNeg, Int.reduceLT, if_true]
      exact ⟨h1, h2⟩

/-- A `mknod` that returns 0 has added one object, named by the key of the
path, to the backing directory. -/
theorem mknod_success (md5 : List Char → Digest) (st st1 : Driver Host) (p : CString)
    (mode dev : Nat) (h : kvfs_mknod md5 Host.exec st p mode dev = (0, st1)) :
    (∃ n, st1.world.nodes = st.world.nodes
        ++ [(components st.rootdir ++ [fingerprint md5 p], n)])
    ∧ st.world.lookup (components st.rootdir) = some Node.dir
    ∧ st.world.lookup (components st.rootdir ++ [fingerprint md5 p]) = none
    ∧ SameGlobals st st1 := by
  simp only [kvfs_mknod, kvfs_mknod_impl, Driver.call, Host.exec, components_key] at h
  split at h
  · rcases open_creat_excl st.world (components st.rootdir ++ [fingerprint md5 p]) with
      ⟨h1, h2, h3, h4⟩ | ⟨h1, h2⟩
    · rw [List.dropLast_concat] at h4
      have hlog : log_syscall
          (st.world.open_ (components st.rootdir ++ [fingerprint md5 p])
            O_CREAT_EXCL_WRONLY).1.errno
          (st.world.open_ (components st.rootdir ++ [fingerprint md5 p])
            O_CREAT_EXCL_WRONLY).1.ret 0 = (st.world.next : Int) + 3 := by
        rw [h1]; unfold log_syscall; rw [if_neg (by omega)]
      rw [hlog] at h
      have hge : (st.world.next : Int) + 3 ≥ 0 := by omega
      simp only [hge, if_true, h2, List.mem_cons, true_or, Prod.mk.injEq] at h
      obtain ⟨_, rfl⟩ := h
      exact ⟨⟨Node.file, rfl⟩, h4, h3, rfl, rfl, rfl⟩
    · exfalso
      have hlog : log_syscall
          (st.world.open_ (components st.rootdir ++ [fingerprint md5 p])
            O_CREAT_EXCL_WRONLY).1.errno
          (st.world.open_ (components st.rootdir ++ [fingerprint md5 p])
            O_CREAT_EXCL_WRONLY).1.ret 0
          = -(st.world.open_ (components st.rootdir ++ [fingerprint md5 p])
            O_CREAT_EXCL_WRONLY).1.errno := by
        rw [h1]; unfold log_syscall; rw [if_pos (by decide)]
      rw [hlog] at h
      have hneg : ¬ (-(st.world.open_ (components st.rootdir ++ [fingerprint md5 p])
            O_CREAT_EXCL_WRONLY).1.errno ≥ 0) := by omega
      simp only [hneg, if_false, Prod.mk.injEq] at h
      omega
  · split at h
    · simp only [Prod.mk.injEq] at h
      obtain ⟨hr, rfl⟩ := h
      rcases create_cases st.world (components st.rootdir ++ [fingerprint md5 p]) Node.fifo with
        ⟨_, h2, h3, h4⟩ | ⟨h1, h2, _⟩
      · rw [List.dropLast_concat] at h4
        simp only [h2]
        exact ⟨⟨Node.fifo, rfl⟩, h4, h3, rfl, rfl, rfl⟩
      · rw [h1] at hr
        exact absurd hr (log_syscall_zero_of_neg _ h2)
    · simp only [Prod.mk.injEq] at h
      obtain ⟨hr, rfl⟩ := h
      rcases create_cases st.world (components st.rootdir ++ [fingerprint md5 p]) Node.dev with
        ⟨_, h2, h3, h4⟩ | ⟨h1, h2, _⟩
      · rw [List.dropLast_concat] at h4
        simp only [h2]
        exact ⟨⟨Node.dev, rfl⟩, h4, h3, rfl, rfl, rfl⟩
      · rw [h1] at hr
        exact absurd hr (log_syscall_zero_of_neg _ h2)

theorem rename_cases (h : Host) (o n : List CString) (hne : o ≠ n) :
    ((h.rename o n).1.ret = 0 ∧ (h.rename o n).2 = h.move o n ∧ o ≠ []
        ∧ (∃ src, h.lookup o = some src) ∧ h.lookup n.dropLast = some Node.dir)
    ∨ ((h.rename o n).1.ret = -1 ∧ 0 < (h.rename o n).1.errno) := by
  unfold Host.rename
  split
  · exact Or.inr ⟨rfl, (by decide : (0 : Int) < ENOENT)⟩
  · rename_i src hsrc
    split
    · exact Or.inr ⟨rfl, (by decide : (0 : Int) < EBUSY)⟩
    · rename_i ho
      split
      · exact Or.inr ⟨rfl, (by decide : (0 : Int) < EINVAL)⟩
      · split
        · exact Or.inr ⟨rfl, (by decide : (0 : Int) < ENOENT)⟩
        · rename_i hpar
          split
          · exact Or.inl ⟨rfl, rfl, ho, ⟨src, hsrc⟩, hpar⟩
          · split
            · split
              · split
                · exact Or.inl ⟨rfl, rfl, ho, ⟨src, hsrc⟩, hpar⟩
                · exact Or.inr ⟨rfl, (by decide : (0 : Int) < ENOTEMPTY)⟩
              · exact Or.inr ⟨rfl, (by decide : (0 : Int) < ENOTDIR)⟩
            · split
              · exact Or.inr ⟨rfl, (by decide : (0 : Int) < EISDIR)⟩
              · exact Or.inl ⟨rfl, rfl, ho, ⟨src, hsrc⟩, hpar⟩
        · exact Or.inr ⟨rfl, (by decide : (0 : Int) < ENOTDIR)⟩

theorem rekey_snd (o n : List CString) (a : List CString × Node) :
    (if o.isPrefixOf a.1 then (n ++ a.1.drop o.length, a.2) else a).2 = a.2 := by
  split <;> rfl

theorem rekey_fst_eq (o n : List CString) (hne : o ≠ n) (a : List CString × Node) :
    (a.1 ≠ n ∧ (if o.isPrefixOf a.1 then (n ++ a.1.drop o.length, a.2) else a).1 = n)
      ↔ a.1 = o := by
  constructor
  · rintro ⟨han, hk⟩
    by_cases hp : o.isPrefixOf a.1 = true
    · rw [if_pos hp] at hk
      have hd : a.1.drop o.length = [] := by
        have := congrArg List.length hk
        simp only [List.length_append] at this
        exact List.length_eq_zero.mp (by omega)
      obtain ⟨t, ht⟩ := List.isPrefixOf_iff_prefix.mp hp
      rw [← ht, List.drop_left] at hd
      rw [hd, List.append_nil] at ht
      exact ht.symm
    · rw [if_neg hp] at hk
      exact absurd hk han
  · intro hao
    have hp : o.isPrefixOf a.1 = true := by
      rw [hao]; exact List.isPrefixOf_iff_prefix.mpr (List.prefix_refl o)
    refine ⟨fun e => hne (hao.symm.trans e), ?_⟩
    rw [if_pos hp, hao]
    simp

theorem find_move_new (o n : List CString) (hne : o ≠ n)
    (l : List (List CString × Node)) :
    (((l.filter (fun e => e.1 ≠ n)).map
        (fun e => if o.isPrefixOf e.1 then (n ++ e.1.drop o.length, e.2) else e)).find?
        (fun e => e.1 = n)).map (fun e => e.2)
      = (l.find? (fun e => e.1 = o)).map (fun e => e.2) := by
  induction l with
  | nil => rfl
  | cons a l ih =>
    by_cases hao : a.1 = o
    · have h1 := (rekey_fst_eq o n hne a).mpr hao
      have hf : (a :: l).filter (fun e => e.1 ≠ n) = a :: l.filter (fun e => e.1 ≠ n) := by
        rw [List.filter_cons, if_pos (by simpa using h1.1)]
      rw [hf, List.map_cons, List.find?_cons_of_pos _ (by simpa using h1.2),
        List.find?_cons_of_pos _ (by simpa using hao)]
      simp only [Option.map_some']
      rw [rekey_snd]
    · rw [List.find?_cons_of_neg _ (by simpa using hao)]
      by_cases han : a.1 = n
      · have hf : (a :: l).filter (fun e => e.1 ≠ n) = l.filter (fun e => e.1 ≠ n) := by
          rw [List.filter_cons, if_neg (by simpa using han)]
        rw [hf]
        exact ih
      · have hf : (a :: l).filter (fun e => e.1 ≠ n) = a :: l.filter (fun e => e.1 ≠ n) := by
          rw [List.filter_cons, if_pos (by simpa using han)]
        have hk : ¬ (if o.isPrefixOf a.1 then (n ++ a.1.drop o.length, a.2) else a).1 = n :=
          fun hk => hao ((rekey_fst_eq o n hne a).mp ⟨han, hk⟩)
        rw [hf, List.map_cons, List.find?_cons_of_neg _ (by simpa using hk)]
        exact ih

theorem mem_move_key (o n : List CString) (l : List (List CString × Node))
    (e : List CString × Node)
    (he : e ∈ (l.filter (fun e => e.1 ≠ n)).map
        (fun e => if o.isPrefixOf e.1 then (n ++ e.1.drop o.length, e.2) else e)) :
    (∃ a ∈ l, o.isPrefixOf a.1 = true ∧ e.1 = n ++ a.1.drop o.length)
    ∨ (e ∈ l ∧ ¬ o.isPrefixOf e.1 = true ∧ e.1 ≠ n) := by
  rw [List.mem_map] at he
  obtain ⟨a, ha, rfl⟩ := he
  rw [List.mem_filter] at ha
  have han : a.1 ≠ n := by simpa using ha.2
  by_cases hp : o.isPrefixOf a.1 = true
  · left
    exact ⟨a, ha.1, hp, by rw [if_pos hp]⟩
  · right
    rw [if_neg hp]
    exact ⟨ha.1, hp, han⟩

theorem lookup_move_new (h : Host) (o n : List CString) (hne : o ≠ n) (ho : o ≠ [])
    (hn : n ≠ []) : (h.move o n).lookup n = h.lookup o := by
  unfold Host.lookup Host.move
  rw [if_neg hn, if_neg ho]
  exact find_move_new o n hne h.nodes

theorem lookup_move_old (h : Host) (o n : List CString) (hne : o ≠ n) (ho : o ≠ [])
    (hlen : o.length = n.length) : (h.move o n).lookup o = none := by
  rw [lookup_eq_none _ _ ho]
  intro e he heo
  rcases mem_move_key o n h.nodes e he with ⟨a, _, _, hk⟩ | ⟨_, hp, _⟩
  · rw [heo] at hk
    have hl := congrArg List.length hk
    simp only [List.length_append] at hl
    have hd : a.1.drop o.length = [] := List.length_eq_zero.mp (by omega)
    rw [hd, List.append_nil] at hk
    exact hne hk
  · apply hp
    rw [heo]
    exact List.isPrefixOf_iff_prefix.mpr (List.prefix_refl o)

theorem find_move_short (o n c : List CString) (hco : c.length < o.length)
    (hcn : c.length < n.length) (l : List (List CString × Node)) :
    (((l.filter (fun e => e.1 ≠ n)).map
        (fun e => if o.isPrefixOf e.1 then (n ++ e.1.drop o.length, e.2) else e)).find?
        (fun e => e.1 = c)).map (fun e => e.2)
      = (l.find? (fun e => e.1 = c)).map (fun e => e.2) := by
  induction l with
  | nil => rfl
  | cons a l ih =>
    by_cases han : a.1 = n
    · have hf : (a :: l).filter (fun e => e.1 ≠ n) = l.filter (fun e => e.1 ≠ n) := by
        rw [List.filter_cons, if_neg (by simpa using han)]
      have hac : ¬ a.1 = c := by
        intro e; rw [han] at e; rw [e] at hcn; omega
      rw [hf, List.find?_cons_of_neg _ (by simpa using hac)]
      exact ih
    · have hf : (a :: l).filter (fun e => e.1 ≠ n) = a :: l.filter (fun e => e.1 ≠ n) := by
        rw [List.filter_cons, if_pos (by simpa using han)]
      rw [hf, List.map_cons]
      by_cases hac : a.1 = c
      · have hp : ¬ o.isPrefixOf a.1 = true := by
          intro hp
          have := (List.isPrefixOf_iff_prefix.mp hp).length_le
          rw [hac] at this
          omega
        rw [if_neg hp, List.find?_cons_of_pos _ (by simpa using hac),
          List.find?_cons_of_pos _ (by simpa using hac)]
      · have hk : ¬ (if o.isPrefixOf a.1 then (n ++ a.1.drop o.length, a.2) else a).1 = c := by
          split
          · intro e
            have := congrArg List.length e
            simp only [List.length_append] at this
            omega
          · exact hac
        rw [List.find?_cons_of_neg _ (by simpa using hk),
          List.find?_cons_of_neg _ (by simpa using hac)]
        exact ih

theorem lookup_move_short (h : Host) (o n c : List CString) (hco : c.length < o.length)
    (hcn : c.length < n.length) : (h.move o n).lookup c = h.lookup c := by
  unfold Host.lookup Host.move
  by_cases hc : c = []
  · rw [if_pos hc, if_pos hc]
  · rw [if_neg hc, if_neg hc]
    exact find_move_short o n c hco hcn h.nodes

/-- A `rename` between two different keys that returns 0 has performed the
move on the host. -/
theorem rename_success (md5 : List Char → Digest) (st st1 : Driver Host) (old new : CString)
    (hne : fingerprint md5 old ≠ fingerprint md5 new)
    (h : kvfs_rename md5 Host.exec st old new = (0, st1)) :
    st1.world = st.world.move (components st.rootdir ++ [fingerprint md5 old])
        (components st.rootdir ++ [fingerprint md5 new])
    ∧ (∃ src, st.world.lookup (components st.rootdir ++ [fingerprint md5 old]) = some src)
    ∧ st.world.lookup (components st.rootdir) = some Node.dir
    ∧ SameGlobals st st1 := by
  simp only [kvfs_rename, kvfs_rename_impl, Driver.call, Host.exec, components_key,
    Prod.mk.injEq] at h
  obtain ⟨hr, rfl⟩ := h
  have hne2 : components st.rootdir ++ [fingerprint md5 old]
      ≠ components st.rootdir ++ [fingerprint md5 new] := by
    intro e
    exact hne (by simpa using e)
  rcases rename_cases st.world _ _ hne2 with ⟨_, h2, _, h4, h5⟩ | ⟨h1, h2⟩
  · rw [List.dropLast_concat] at h5
    exact ⟨h2, h4, h5, rfl, rfl, rfl⟩
  · rw [h1] at hr
    exact absurd hr (log_syscall_zero_of_neg _ h2)

/-- On the host, `getattr` of a path whose key is not the key of `/` and
under whose key the backing directory holds nothing returns `-ENOENT`. -/
theorem getattr_missing (md5 : List Char → Digest) (st : Driver Host) (p : CString)
    (hroot : st.root = some (rootMarker md5))
    (hp : fingerprint md5 p ≠ fingerprint md5 "/".toList)
    (hl : st.world.lookup (components st.rootdir ++ [fingerprint md5 p]) = none) :
    ∃ st1, kvfs_getattr md5 Host.exec st p = some (-ENOENT, st1) := by
  have hc := components_resolve md5 st.rootdir p
  rw [if_neg hp] at hc
  simp only [kvfs_getattr, kvfs_getattr_impl, hroot, root_or_inside_eq_resolve, Driver.call,
    Host.exec, hc, Host.touch, hl]
  exact ⟨_, rfl⟩

theorem touch_nodes (h : Host) (p : List CString) : (h.touch p).2.nodes = h.nodes := by
  unfold Host.touch
  split <;> rfl

theorem access_host (md5 : List Char → Digest) (st st1 : Driver Host) (p : CString)
    (mask r : Int) (h : kvfs_access md5 Host.exec st p mask = some (r, st1)) :
    st1.world.nodes = st.world.nodes ∧ st1.rootdir = st.rootdir
    ∧ st1.root = (kvfs_access_first_run md5 st).root := by
  simp only [kvfs_access, kvfs_access_impl] at h
  split at h
  · cases h
  · simp only [Option.some.injEq, Prod.mk.injEq] at h
    obtain ⟨_, rfl⟩ := h
    refine ⟨?_, ?_, rfl⟩
    · simp only [Driver.call, Host.exec, touch_nodes]
      unfold kvfs_access_first_run
      split <;> rfl
    · simp only [Driver.call]
      unfold kvfs_access_first_run
      split <;> rfl

theorem key_ne_short (md5 : List Char → Digest) (p : CString) (x : CString)
    (hx : x.length < 32) : fingerprint md5 p ≠ x := by
  intro h
  have := fingerprint_length md5 p
  rw [h] at this
  omega

theorem components_resolve_root (md5 : List Char → Digest) (rootdir : CString) :
    components (resolve md5 rootdir "/".toList) = components rootdir := by
  rw [components_resolve, if_pos rfl]

/-- C7 (amended): after a `rename(old, new)` that returns 0, with different
keys for `old` and `new`, the object that the backing directory held under
`fingerprint(old)` is held under `fingerprint(new)` and nothing is held under
`fingerprint(old)`; `getattr(old)` then returns `-ENOENT` unless `old` has the
key of `/`; and a listing of `/` yields the key `fingerprint(new)` and not
the key `fingerprint(old)` (keys, not names). -/
theorem rename_moves_key (md5 : List Char → Digest) (st st1 : Driver Host) (old new : CString)
    (hroot : st.root = some (rootMarker md5))
    (hne : fingerprint md5 old ≠ fingerprint md5 new)
    (h : kvfs_rename md5 Host.exec st old new = (0, st1)) :
    (∃ obj, st.world.lookup (components st.rootdir ++ [fingerprint md5 old]) = some obj
        ∧ st1.world.lookup (components st.rootdir ++ [fingerprint md5 new]) = some obj)
    ∧ st1.world.lookup (components st.rootdir ++ [fingerprint md5 old]) = none
    ∧ (fingerprint md5 old ≠ fingerprint md5 "/".toList →
        ∃ st2, kvfs_getattr md5 Host.exec st1 old = some (-ENOENT, st2))
    ∧ (∀ fuel, st1.world.nodes.length + 2 ≤ fuel →
        ∃ names st2, kvfs_list md5 Host.exec fuel st1 "/".toList = some (0, names, st2)
          ∧ fingerprint md5 new ∈ names ∧ fingerprint md5 old ∉ names) := by
  obtain ⟨hw, ⟨src, hsrc⟩, hdir, hg1, hg2, hg3⟩ := rename_success md5 st st1 old new hne h
  have hne2 : components st.rootdir ++ [fingerprint md5 old]
      ≠ components st.rootdir ++ [fingerprint md5 new] := by
    intro e
    exact hne (by simpa using e)
  have hnew : st1.world.lookup (components st.rootdir ++ [fingerprint md5 new]) = some src := by
    rw [hw, lookup_move_new _ _ _ hne2 (by simp) (by simp)]
    exact hsrc
  have hold : st1.world.lookup (components st.rootdir ++ [fingerprint md5 old]) = none := by
    rw [hw]
    exact lookup_move_old _ _ _ hne2 (by simp) (by simp)
  have hroot1 : st1.root = some (rootMarker md5) := by rw [hg2]; exact hroot
  have hpar : st1.world.lookup (components st1.rootdir) = some Node.dir := by
    rw [hg3, hw, lookup_move_short _ _ _ _ (by simp) (by simp)]
    exact hdir
  refine ⟨⟨src, hsrc, hnew⟩, hold, ?_, ?_⟩
  · intro hp
    exact getattr_missing md5 st1 old hroot1 hp (by rw [hg3]; exact hold)
  · intro fuel hf
    obtain ⟨st2, hst2⟩ := kvfs_list_full md5 fuel st1 "/".toList hroot1
      (by rw [components_resolve_root]; exact hpar) hf
    rw [components_resolve_root, hg3] at hst2
    refine ⟨_, st2, hst2, ?_, ?_⟩
    · apply List.mem_cons_of_mem
      apply List.mem_cons_of_mem
      rw [mem_children]
      exact ⟨_, lookup_eq_some_mem _ _ _ (by simp) hnew, rfl⟩
    · intro hmem
      simp only [List.mem_cons] at hmem
      rcases hmem with hmem | hmem | hmem
      · exact key_ne_short md5 old _ (by decide) hmem
      · exact key_ne_short md5 old _ (by decide) hmem
      · rw [mem_children] at hmem
        obtain ⟨e, he, hek⟩ := hmem
        exact (lookup_eq_none _ _ (by simp)).mp hold e he hek

theorem rename_nodes (h : Host) (o n : List CString) :
    (h.rename o n).2.nodes = h.nodes ∨ (h.rename o n).2 = h.move o n := by
  unfold Host.rename
  split
  · exact Or.inl rfl
  · split
    · exact Or.inl rfl
    · split
      · exact Or.inl rfl
      · split
        · exact Or.inl rfl
        · split
          · exact Or.inl rfl
          · split
            · exact Or.inr rfl
            · split
              · split
                · split
                  · exact Or.inr rfl
                  · exact Or.inl rfl
                · exact Or.inl rfl
              · split
                · exact Or.inl rfl
                · exact Or.inr rfl
          · exact Or.inl rfl

theorem fresh_data :
    (Host.fresh ["data".toList]).nodes = [(["data".toList], Node.dir)]
    ∧ components "/data".toList = ["data".toList] := by
  constructor <;> decide

/-- In the backing directory `/data`, started empty, no object made by one
`mknod` and moved by one `rename` is listed under a name shorter than a key. -/
theorem rename_scenario_names (md5 : List Char → Digest) (st1 st2 st3 : Driver Host)
    (r : Int) (p q x : CString) (hx : x.length < 32)
    (h1 : st1.world.nodes = [(["data".toList], Node.dir)])
    (hd : st1.rootdir = "/data".toList)
    (h2 : kvfs_mknod md5 Host.exec st1 p 0o100644 0 = (0, st2))
    (h3 : kvfs_rename md5 Host.exec st2 p q = (r, st3)) :
    ∀ e ∈ st3.world.nodes, e.1 ≠ ["data".toList] ++ [x] := by
  obtain ⟨⟨n, hn⟩, _, _, _, _, hg⟩ := mknod_success md5 st1 st2 p _ _ h2
  rw [hd, fresh_data.2, h1] at hn
  have hk2 : ∀ e ∈ st2.world.nodes, e.1 ≠ ["data".toList] ++ [x] := by
    intro e he hek
    rw [hn] at he
    simp only [List.cons_append, List.nil_append, List.mem_cons, List.mem_singleton,
      List.not_mem_nil, or_false] at he
    rcases he with he | he
    · rw [he] at hek; simp at hek
    · rw [he] at hek
      simp only [List.cons_append, List.nil_append, List.cons.injEq, true_and, and_true] at hek
      exact key_ne_short md5 p x hx hek
  simp only [kvfs_rename, kvfs_rename_impl, Driver.call, Host.exec, components_key,
    Prod.mk.injEq] at h3
  obtain ⟨_, rfl⟩ := h3
  rw [hg, hd, fresh_data.2]
  rcases rename_nodes st2.world (["data".toList] ++ [fingerprint md5 p])
    (["data".toList] ++ [fingerprint md5 q]) with hsame | hmove
  · simp only []
    rw [hsame]
    exact hk2
  · simp only []
    rw [hmove]
    intro e he hek
    rcases mem_move_key _ _ _ e he with ⟨a, _, _, hk⟩ | ⟨hm, _, _⟩
    · rw [hek] at hk
      have hl := congrArg List.length hk
      simp only [List.length_append, List.length_cons, List.length_nil] at hl
      have hd0 : a.1.drop (0 + 1 + (0 + 1)) = [] := List.length_eq_zero.mp (by omega)
      simp only [List.length_append, List.length_cons, List.length_nil] at hk
      rw [hd0] at hk
      simp only [List.cons_append, List.nil_append, List.append_nil, List.cons.injEq,
        true_and, and_true] at hk
      exact key_ne_short md5 q x hx hk.symm
    · exact hk2 e hm hek

theorem sample_keys :
    fingerprint sampleDigest "/".toList = hexEncode (sampleDigest "/".toList)
    ∧ fingerprint sampleDigest "/foo".toList = hexEncode (sampleDigest "/foo".toList)
    ∧ fingerprint sampleDigest "/bar".toList = hexEncode (sampleDigest "/bar".toList)
    ∧ fingerprint sampleDigest "/a".toList = hexEncode (sampleDigest "/a".toList)
    ∧ fingerprint sampleDigest "/a/b.txt".toList = hexEncode (sampleDigest "/a/b.txt".toList)
    ∧ str2md5 sampleDigest "/".toList (size_t_to_int (strlen "/".toList))
        = hexEncode (sampleDigest "/".toList) := by
  refine ⟨fingerprint_eq_hexEncode _ _ (by decide), fingerprint_eq_hexEncode _ _ (by decide),
    fingerprint_eq_hexEncode _ _ (by decide), fingerprint_eq_hexEncode _ _ (by decide),
    fingerprint_eq_hexEncode _ _ (by decide), ?_⟩
  have := fingerprint_eq_hexEncode sampleDigest "/".toList (by decide)
  unfold fingerprint at this
  exact this

set_option maxRecDepth 100000 in
theorem renameScenario_sample :
    renameScenario sampleDigest 8
      = some (0, 0, 0, 0, [".".toList, "..".toList, hexEncode (sampleDigest "/bar".toList)]) := by
  obtain ⟨e0, e1, e2, _, _, e5⟩ := sample_keys
  simp only [renameScenario, kvfs_access, kvfs_access_impl, kvfs_access_first_run, kvfs_mknod,
    kvfs_rename, kvfs_list, kvfs_opendir, kvfs_readdir, kvfs_releasedir, rootMarker,
    e0, e1, e2, e5]
  rfl

/-- C7 (as stated, refuted): on the empty backing directory `/data`, the
requests `access("/")`, `mknod("/foo")`, `rename("/foo", "/bar")` all return 0
and a listing of the parent `/` then returns 0 with the names `.`, `..` and
the key of `/bar` (shown with `sampleDigest`); and whatever the digest
function, no listing after these requests yields the name `bar`. -/
theorem rename_listing_lacks_name :
    renameScenario sampleDigest 8
      = some (0, 0, 0, 0, [".".toList, "..".toList, hexEncode (sampleDigest "/bar".toList)])
    ∧ ¬ ∃ (md5 : List Char → Digest) (fuel : Nat) (a r l : Int) (names : List CString),
        renameScenario md5 fuel = some (a, 0, r, l, names) ∧ "bar".toList ∈ names := by
  refine ⟨renameScenario_sample, ?_⟩
  rintro ⟨md5, fuel, a, r, l, names, hs, hbar⟩
  simp only [renameScenario, Option.bind_eq_some, Option.map_eq_some', Prod.mk.injEq] at hs
  obtain ⟨⟨ra, st1⟩, hacc, res, hlist, _, hmk, _, _, hnames⟩ := hs
  obtain ⟨hn1, hd1, hr1⟩ := access_host md5 freshDriver st1 _ _ _ hacc
  have hroot1 : st1.root = some (rootMarker md5) := by
    rw [hr1]; exact access_first_run_zero md5 freshDriver rfl
  have hn1b : st1.world.nodes = [(["data".toList], Node.dir)] := by
    rw [hn1]; exact fresh_data.1
  have hd1b : st1.rootdir = "/data".toList := hd1
  simp only at hmk hlist
  have hg2 := (mknod_success md5 st1 _ "/foo".toList 0o100644 0
    (Prod.ext hmk rfl)).2.2.2
  have hkeys := rename_scenario_names md5 st1 _ _ _ "/foo".toList "/bar".toList
    "bar".toList (by decide) hn1b hd1b (Prod.ext hmk rfl) rfl
  have hg3 := kvfs_step_globals md5 Host.exec _ _ (Op.rename "/foo".toList "/bar".toList)
    (rfl : kvfs_step md5 Host.exec
      (kvfs_mknod md5 Host.exec st1 "/foo".toList 0o100644 0).2
      (Op.rename "/foo".toList "/bar".toList) = some _)
  rcases hg3 with hg3 | ⟨⟨_, _, hop⟩, _⟩
  · have hroot3 : (kvfs_rename md5 Host.exec
        (kvfs_mknod md5 Host.exec st1 "/foo".toList 0o100644 0).2
        "/foo".toList "/bar".toList).2.root = some (rootMarker md5) := by
      rw [hg3.2.1, hg2.2.1]; exact hroot1
    have hdir3 : (kvfs_rename md5 Host.exec
        (kvfs_mknod md5 Host.exec st1 "/foo".toList 0o100644 0).2
        "/foo".toList "/bar".toList).2.rootdir = "/data".toList := by
      rw [hg3.2.2, hg2.2.2]; exact hd1b
    rw [← hnames] at hbar
    rcases kvfs_list_subset md5 fuel _ "/".toList hroot3 res hlist _ hbar with hx | hx | hx
    · exact absurd hx (by decide)
    · exact absurd hx (by decide)
    · rw [components_resolve_root, hdir3, fresh_data.2, mem_children] at hx
      obtain ⟨e, he, hek⟩ := hx
      exact hkeys e he hek
  · cases hop

/-- Evaluation of `rename_moves_key` on `sampleState`, which stores a file
under the key of `/foo`: the file is renamed to `/bar`. -/
theorem rename_moves_key_witness :
    sampleState.root = some (rootMarker sampleDigest)
    ∧ fingerprint sampleDigest "/foo".toList ≠ fingerprint sampleDigest "/bar".toList
    ∧ kvfs_rename sampleDigest Host.exec sampleState "/foo".toList "/bar".toList
        = (0, (kvfs_rename sampleDigest Host.exec sampleState "/foo".toList "/bar".toList).2)
    ∧ (kvfs_rename sampleDigest Host.exec sampleState "/foo".toList
          "/bar".toList).2.world.lookup
        (components sampleState.rootdir ++ [fingerprint sampleDigest "/foo".toList]) = none :=
  have hne : fingerprint sampleDigest "/foo".toList
      ≠ fingerprint sampleDigest "/bar".toList := by
    rw [sample_keys.2.1, sample_keys.2.2.1]; decide
  have hrn : kvfs_rename sampleDigest Host.exec sampleState "/foo".toList "/bar".toList
      = (0, (kvfs_rename sampleDigest Host.exec sampleState "/foo".toList
          "/bar".toList).2) := by
    refine Prod.ext ?_ rfl
    simp only [kvfs_rename, sample_keys.2.1, sample_keys.2.2.1]
    rfl
  ⟨rfl, hne, hrn,
    (rename_moves_key sampleDigest sampleState _ "/foo".toList "/bar".toList rfl hne hrn).2.1⟩

theorem lookup_append_some (h h1 : Host) (p : List CString) (n : Node)
    (l : List (List CString × Node)) (hn : h1.nodes = h.nodes ++ l)
    (hl : h.lookup p = some n) : h1.lookup p = some n := by
  unfold Host.lookup at hl ⊢
  split
  · rename_i hp; rw [if_pos hp] at hl; exact hl
  · rename_i hp
    rw [if_neg hp] at hl
    rw [hn, List.find?_append]
    cases hf : h.nodes.find? (fun e => e.1 = p) with
    | none => rw [hf] at hl; cases hl
    | some e => rw [hf] at hl; simpa using hl

/-- After an object has been added under the key `k`, a listing of `/` with
enough fuel returns 0 and yields `k`. -/
theorem list_after_create (md5 : List Char → Digest) (st st1 : Driver Host) (k : CString)
    (n : Node) (hroot : st.root = some (rootMarker md5))
    (hn : st1.world.nodes = st.world.nodes ++ [(components st.rootdir ++ [k], n)])
    (hd : st.world.lookup (components st.rootdir) = some Node.dir)
    (hg : SameGlobals st st1) (fuel : Nat) (hf : st1.world.nodes.length + 2 ≤ fuel) :
    ∃ names st2, kvfs_list md5 Host.exec fuel st1 "/".toList = some (0, names, st2)
      ∧ k ∈ names := by
  have hroot1 : st1.root = some (rootMarker md5) := by rw [hg.2.1]; exact hroot
  have hd1 : st1.world.lookup (components st1.rootdir) = some Node.dir := by
    rw [hg.2.2]; exact lookup_append_some st.world st1.world _ _ _ hn hd
  obtain ⟨st2, hst2⟩ := kvfs_list_full md5 fuel st1 "/".toList hroot1
    (by rw [components_resolve_root]; exact hd1) hf
  rw [components_resolve_root, hg.2.2] at hst2
  refine ⟨_, st2, hst2, ?_⟩
  apply List.mem_cons_of_mem
  apply List.mem_cons_of_mem
  rw [mem_children]
  refine ⟨(components st.rootdir ++ [k], n), ?_, rfl⟩
  rw [hn]
  exact List.mem_append_right _ (List.mem_singleton_self _)

/-- After the object under the key `fingerprint(p)` has been removed, no
listing of `/` yields that key. -/
theorem list_after_erase (md5 : List Char → Digest) (st st1 : Driver Host) (p : CString)
    (hroot : st.root = some (rootMarker md5))
    (hn : st1.world.nodes = st.world.nodes.filter
        (fun e => e.1 ≠ components st.rootdir ++ [fingerprint md5 p]))
    (hg : SameGlobals st st1) (fuel : Nat) (res : Int × List CString × Driver Host)
    (h : kvfs_list md5 Host.exec fuel st1 "/".toList = some res) :
    fingerprint md5 p ∉ res.2.1 := by
  have hroot1 : st1.root = some (rootMarker md5) := by rw [hg.2.1]; exact hroot
  intro hmem
  rcases kvfs_list_subset md5 fuel st1 "/".toList hroot1 res h _ hmem with hx | hx | hx
  · exact key_ne_short md5 p _ (by decide) hx
  · exact key_ne_short md5 p _ (by decide) hx
  · rw [components_resolve_root, hg.2.2, mem_children] at hx
    obtain ⟨e, he, hek⟩ := hx
    rw [hn, List.mem_filter] at he
    simp only [ne_eq, decide_not, Bool.not_eq_eq_eq_not, Bool.not_true,
      decide_eq_false_iff_not] at he
    exact he.2 hek

/-- C6 (amended): listings work on keys. From a state in which `root` holds
the marker, after an `mknod(p)` that returns 0 a listing of `/` (with enough
fuel) returns 0 and yields the key `fingerprint(p)`; after an `unlink(p)` that
returns 0 no listing of `/` yields `fingerprint(p)`; the same holds for
`mkdir` and `rmdir`; and every name that a listing of any path `q` yields is
`.`, `..` or the name of an object directly inside the backing location
`resolve(q)`. -/
theorem listing_round_trip_on_keys (md5 : List Char → Digest) (st st1 st2 : Driver Host)
    (p : CString) (mode dev : Nat) (hroot : st.root = some (rootMarker md5))
    (hmk : kvfs_mknod md5 Host.exec st p mode dev = (0, st1))
    (hul : kvfs_unlink md5 Host.exec st1 p = (0, st2)) :
    (∀ fuel, st1.world.nodes.length + 2 ≤ fuel →
        ∃ names st3, kvfs_list md5 Host.exec fuel st1 "/".toList = some (0, names, st3)
          ∧ fingerprint md5 p ∈ names)
    ∧ (∀ fuel res, kvfs_list md5 Host.exec fuel st2 "/".toList = some res →
        fingerprint md5 p ∉ res.2.1)
    ∧ (∀ fuel q res, kvfs_list md5 Host.exec fuel st1 q = some res →
        ∀ x ∈ res.2.1, x = ".".toList ∨ x = "..".toList
          ∨ ∃ e ∈ st1.world.nodes, e.1 = components (resolve md5 st1.rootdir q) ++ [x])
    ∧ (∀ q mode2 st3 st4, kvfs_mkdir md5 Host.exec st q mode2 = (0, st3) →
        kvfs_rmdir md5 Host.exec st3 q = (0, st4) →
        (∀ fuel, st3.world.nodes.length + 2 ≤ fuel →
          ∃ names st5, kvfs_list md5 Host.exec fuel st3 "/".toList = some (0, names, st5)
            ∧ fingerprint md5 q ∈ names)
        ∧ (∀ fuel res, kvfs_list md5 Host.exec fuel st4 "/".toList = some res →
          fingerprint md5 q ∉ res.2.1)) := by
  obtain ⟨⟨n, hn⟩, hd, _, hg⟩ := mknod_success md5 st st1 p mode dev hmk
  have hroot1 : st1.root = some (rootMarker md5) := by rw [hg.2.1]; exact hroot
  obtain ⟨hn2, hg2⟩ := unlink_success md5 st1 st2 p hul
  refine ⟨?_, ?_, ?_, ?_⟩
  · intro fuel hf
    exact list_after_create md5 st st1 _ n hroot hn hd hg fuel hf
  · intro fuel res h
    exact list_after_erase md5 st1 st2 p hroot1 hn2 hg2 fuel res h
  · intro fuel q res h x hx
    rcases kvfs_list_subset md5 fuel st1 q hroot1 res h x hx with hx | hx | hx
    · exact Or.inl hx
    · exact Or.inr (Or.inl hx)
    · exact Or.inr (Or.inr ((mem_children _ _ _).mp hx))
  · intro q mode2 st3 st4 hmd hrd
    obtain ⟨hn3, hd3, _, hg3⟩ := mkdir_success md5 st st3 q mode2 hmd
    have hroot3 : st3.root = some (rootMarker md5) := by rw [hg3.2.1]; exact hroot
    obtain ⟨hn4, hg4⟩ := rmdir_success md5 st3 st4 q hrd
    refine ⟨?_, ?_⟩
    · intro fuel hf
      exact list_after_create md5 st st3 _ Node.dir hroot hn3 hd3 hg3 fuel hf
    · intro fuel res h
      exact list_after_erase md5 st3 st4 q hroot3 hn4 hg4 fuel res h

set_option maxRecDepth 100000 in
theorem listingScenario_sample :
    listingScenario sampleDigest 8 = some (0, 0, 0, 0, [".".toList, "..".toList]) := by
  obtain ⟨e0, _, _, e3, e4, e5⟩ := sample_keys
  simp only [listingScenario, kvfs_access, kvfs_access_impl, kvfs_access_first_run, kvfs_mknod,
    kvfs_mkdir, kvfs_list, kvfs_opendir, kvfs_readdir, kvfs_releasedir, rootMarker,
    e0, e3, e4, e5]
  rfl

/-- C6 (as stated, refuted): on the empty backing directory `/data`, the
requests `access("/")`, `mkdir("/a")`, `mknod("/a/b.txt")` all return 0 and a
listing of `/a` then returns 0 with the names `.` and `..` only (shown with
`sampleDigest`); and whatever the digest function, no listing of `/a` after
these requests yields the name `b.txt`. -/
theorem listing_lacks_name :
    listingScenario sampleDigest 8 = some (0, 0, 0, 0, [".".toList, "..".toList])
    ∧ ¬ ∃ (md5 : List Char → Digest) (fuel : Nat) (a l : Int) (names : List CString),
        listingScenario md5 fuel = some (a, 0, 0, l, names) ∧ "b.txt".toList ∈ names := by
  refine ⟨listingScenario_sample, ?_⟩
  rintro ⟨md5, fuel, a, l, names, hs, hb⟩
  simp only [listingScenario, Option.bind_eq_some, Option.map_eq_some', Prod.mk.injEq] at hs
  obtain ⟨⟨ra, st1⟩, hacc, res, hlist, _, hmd, hmk, _, hnames⟩ := hs
  obtain ⟨hn1, hd1, hr1⟩ := access_host md5 freshDriver st1 _ _ _ hacc
  have hroot1 : st1.root = some (rootMarker md5) := by
    rw [hr1]; exact access_first_run_zero md5 freshDriver rfl
  have hd1b : st1.rootdir = "/data".toList := hd1
  simp only at hmd hmk hlist
  obtain ⟨hn2, _, _, hg2⟩ := mkdir_success md5 st1 _ "/a".toList 0o755 (Prod.ext hmd rfl)
  obtain ⟨⟨n, hn3⟩, _, _, hg3⟩ := mknod_success md5 _ _ "/a/b.txt".toList 0o100644 0
    (Prod.ext hmk rfl)
  have hn1b : st1.world.nodes = [(["data".toList], Node.dir)] := by
    rw [hn1]; exact fresh_data.1
  rw [hg2.2.2, hd1b, fresh_data.2] at hn3
  rw [hn2, hn1b, hd1b, fresh_data.2] at hn3
  have hroot3 : (kvfs_mknod md5 Host.exec (kvfs_mkdir md5 Host.exec st1 "/a".toList 0o755).2
      "/a/b.txt".toList 0o100644 0).2.root = some (rootMarker md5) := by
    rw [hg3.2.1, hg2.2.1]; exact hroot1
  have hdir3 : (kvfs_mknod md5 Host.exec (kvfs_mkdir md5 Host.exec st1 "/a".toList 0o755).2
      "/a/b.txt".toList 0o100644 0).2.rootdir = "/data".toList := by
    rw [hg3.2.2, hg2.2.2]; exact hd1b
  rw [← hnames] at hb
  rcases kvfs_list_subset md5 fuel _ "/a".toList hroot3 res hlist _ hb with hx | hx | hx
  · exact absurd hx (by decide)
  · exact absurd hx (by decide)
  · rw [mem_children, hdir3, components_resolve, fresh_data.2] at hx
    obtain ⟨e, he, hek⟩ := hx
    rw [hn3] at he
    simp only [List.cons_append, List.nil_append, List.mem_cons, List.mem_singleton,
      List.not_mem_nil, or_false] at he
    have hka := key_ne_short md5 "/a".toList "b.txt".toList (by decide)
    have hkab := key_ne_short md5 "/a/b.txt".toList "b.txt".toList (by decide)
    split at hek
    · rcases he with he | he | he <;> rw [he] at hek <;>
        simp only [List.cons_append, List.nil_append, List.cons.injEq, true_and, and_true,
          List.cons_ne_nil, and_false, List.nil_eq, reduceCtorEq] at hek
      · exact hka hek
      · exact hkab hek
    · rcases he with he | he | he <;> rw [he] at hek <;>
        simp [List.cons_append, List.nil_append, List.cons.injEq] at hek

/-- Evaluation of `listing_round_trip_on_keys` on `sampleState`: the file
`/a/b.txt` is made and removed again. -/
theorem listing_round_trip_on_keys_witness :
    sampleState.root = some (rootMarker sampleDigest)
    ∧ kvfs_mknod sampleDigest Host.exec sampleState "/a/b.txt".toList 0o100644 0
        = (0, (kvfs_mknod sampleDigest Host.exec sampleState "/a/b.txt".toList 0o100644 0).2)
    ∧ kvfs_unlink sampleDigest Host.exec
          (kvfs_mknod sampleDigest Host.exec sampleState "/a/b.txt".toList 0o100644 0).2
          "/a/b.txt".toList
        = (0, (kvfs_unlink sampleDigest Host.exec
            (kvfs_mknod sampleDigest Host.exec sampleState "/a/b.txt".toList 0o100644 0).2
            "/a/b.txt".toList).2)
    ∧ ∀ fuel res, kvfs_list sampleDigest Host.exec fuel
          (kvfs_unlink sampleDigest Host.exec
            (kvfs_mknod sampleDigest Host.exec sampleState "/a/b.txt".toList 0o100644 0).2
            "/a/b.txt".toList).2 "/".toList = some res →
        fingerprint sampleDigest "/a/b.txt".toList ∉ res.2.1 :=
  have hmk : kvfs_mknod sampleDigest Host.exec sampleState "/a/b.txt".toList 0o100644 0
      = (0, (kvfs_mknod sampleDigest Host.exec sampleState "/a/b.txt".toList
          0o100644 0).2) := by
    refine Prod.ext ?_ rfl
    simp only [kvfs_mknod, sample_keys.2.2.2.2.1]
    rfl
  have hul : kvfs_unlink sampleDigest Host.exec
        (kvfs_mknod sampleDigest Host.exec sampleState "/a/b.txt".toList 0o100644 0).2
        "/a/b.txt".toList
      = (0, (kvfs_unlink sampleDigest Host.exec
          (kvfs_mknod sampleDigest Host.exec sampleState "/a/b.txt".toList 0o100644 0).2
          "/a/b.txt".toList).2) := by
    refine Prod.ext ?_ rfl
    simp only [kvfs_unlink, kvfs_mknod, sample_keys.2.2.2.2.1]
    rfl
  ⟨rfl, hmk, hul,
    (listing_round_trip_on_keys sampleDigest sampleState _ _ "/a/b.txt".toList 0o100644 0
      rfl hmk hul).2.1⟩

/-! ## Flat layout and `readlink` -/

/-- C15: for every virtual path `p`, the location built by the non-root branch
is `rootdir ++ "/" ++ k` with `k = fingerprint(p)` of exactly 32 characters,
none of them `/`; its length is `len(rootdir) + 33` whatever `p` is; on the
host it is the direct child `k` of the backing root; and `mkdir(p)` and
`mknod(p)` make their (first) backing call on it in every state of the driver
and of the world, so whether or not anything exists for the parent of `p`. -/
theorem flat_layout {W : Type} (md5 : List Char → Digest) (sys : Sys W)
    (st : Driver (W × List Syscall)) (p : CString) (mode dev : Nat) :
    real_path_inside_root st.rootdir (fingerprint md5 p)
        = st.rootdir ++ "/".toList ++ fingerprint md5 p
    ∧ (fingerprint md5 p).length = 32
    ∧ '/' ∉ fingerprint md5 p
    ∧ (real_path_inside_root st.rootdir (fingerprint md5 p)).length = st.rootdir.length + 33
    ∧ components (real_path_inside_root st.rootdir (fingerprint md5 p))
        = components st.rootdir ++ [fingerprint md5 p]
    ∧ (kvfs_mkdir md5 (traced sys) st p mode).2.world.2
        = st.world.2 ++ [Syscall.mkdir (st.rootdir ++ "/".toList ++ fingerprint md5 p) mode]
    ∧ (∃ c rest, (kvfs_mknod md5 (traced sys) st p mode dev).2.world.2
          = st.world.2 ++ c :: rest
        ∧ (c = Syscall.open_ (st.rootdir ++ "/".toList ++ fingerprint md5 p)
                O_CREAT_EXCL_WRONLY (some mode)
          ∨ c = Syscall.mkfifo (st.rootdir ++ "/".toList ++ fingerprint md5 p) mode
          ∨ c = Syscall.mknod (st.rootdir ++ "/".toList ++ fingerprint md5 p) mode dev)) := by
  refine ⟨real_path_inside_root_key md5 _ p, fingerprint_length md5 p,
    fingerprint_no_slash md5 p, ?_, components_key md5 _ p, ?_, ?_⟩
  · rw [real_path_inside_root_key]
    simp [fingerprint_length]
  · simp only [kvfs_mkdir, kvfs_mkdir_impl, real_path_inside_root_key]; rfl
  · simp only [kvfs_mknod, kvfs_mknod_impl, real_path_inside_root_key]
    split
    · split
      · exact ⟨_, [_], List.append_assoc _ _ _, Or.inl rfl⟩
      · exact ⟨_, [], rfl, Or.inl rfl⟩
    · split
      · exact ⟨_, [], rfl, Or.inr (Or.inl rfl)⟩
      · exact ⟨_, [], rfl, Or.inr (Or.inr rfl)⟩

theorem poke_eq (cs : List Char) : ∀ (buf : List Char) (pos : Nat),
    pos + cs.length ≤ buf.length →
    poke buf pos cs = buf.take pos ++ cs ++ buf.drop (pos + cs.length) := by
  induction cs with
  | nil => intro buf pos _; simp [poke]
  | cons c cs ih =>
    intro buf pos h
    simp only [List.length_cons] at h
    have hpos : pos < buf.length := by omega
    rw [poke, ih _ _ (by simp only [List.length_set]; omega)]
    have hset : buf.set pos c = buf.take pos ++ c :: buf.drop (pos + 1) :=
      List.set_eq_take_append_cons_drop.trans (by rw [if_pos hpos])
    have hl : (buf.take pos).length = pos := by simp; omega
    have h1 : (buf.set pos c).take (pos + 1) = buf.take pos ++ [c] := by
      rw [hset, List.take_append_eq_append_take, hl]
      simp [List.take_take, Nat.min_eq_left (Nat.le_succ pos)]
    have h2 : (buf.set pos c).drop (pos + 1 + cs.length)
        = buf.drop (pos + (cs.length + 1)) := by
      rw [hset, List.drop_append_eq_append_drop, hl]
      have e1 : (buf.take pos).drop (pos + 1 + cs.length) = [] := by
        apply List.drop_eq_nil_of_le; rw [hl]; omega
      have e2 : pos + 1 + cs.length - pos = (cs.length) + 1 := by omega
      rw [e1, e2, List.nil_append, List.drop_succ_cons, List.drop_drop]
      congr 1
      omega
    rw [h1, h2]
    simp

theorem poke_zero (buf data : List Char) (h : data.length ≤ buf.length) :
    poke buf 0 data = data ++ buf.drop data.length := by
  rw [poke_eq data buf 0 (by omega)]
  simp

/-- C11: for every buffer size from 1 to `SIZE_MAX`, `kvfs_readlink` makes one
backing call, `readlink` on `rootdir/fingerprint(path)` asking for at most
`size - 1` bytes. When that call returns `k ≤ size - 1` bytes, the operation
returns 0 and the buffer, still `size` long, holds those `k` bytes followed by
NUL at index `k` (so the stored C string is the bytes delivered, cut to
`size - 1` at most). When the call fails, the operation returns `-errno` and
the buffer is as it was: no terminator is written. -/
theorem readlink_terminates_buffer {W : Type} (md5 : List Char → Digest) (sys : Sys W)
    (st : Driver (W × List Syscall)) (path : CString) (link : List Char) (size : Nat)
    (hsize : 1 ≤ size) (hmax : size < 2 ^ 64) (hlen : link.length = size) :
    (kvfs_readlink md5 (traced sys) st path link size).2.2.world.2
        = st.world.2 ++ [Syscall.readlink
            (st.rootdir ++ "/".toList ++ fingerprint md5 path) (size - 1)]
    ∧ (∀ k : Nat,
        (sys (Syscall.readlink (st.rootdir ++ "/".toList ++ fingerprint md5 path) (size - 1))
          st.world.1).1.ret = k →
        (sys (Syscall.readlink (st.rootdir ++ "/".toList ++ fingerprint md5 path) (size - 1))
          st.world.1).1.data.length = k →
        k ≤ size - 1 →
        (kvfs_readlink md5 (traced sys) st path link size).1 = 0
        ∧ (kvfs_readlink md5 (traced sys) st path link size).2.1.length = size
        ∧ (kvfs_readlink md5 (traced sys) st path link size).2.1.take k
            = (sys (Syscall.readlink (st.rootdir ++ "/".toList ++ fingerprint md5 path)
                (size - 1)) st.world.1).1.data
        ∧ (kvfs_readlink md5 (traced sys) st path link size).2.1[k]? = some NUL
        ∧ (NUL ∉ (sys (Syscall.readlink (st.rootdir ++ "/".toList ++ fingerprint md5 path)
                (size - 1)) st.world.1).1.data →
            cstr (kvfs_readlink md5 (traced sys) st path link size).2.1
              = (sys (Syscall.readlink (st.rootdir ++ "/".toList ++ fingerprint md5 path)
                  (size - 1)) st.world.1).1.data))
    ∧ ((sys (Syscall.readlink (st.rootdir ++ "/".toList ++ fingerprint md5 path) (size - 1))
          st.world.1).1.ret < 0 →
        0 < (sys (Syscall.readlink (st.rootdir ++ "/".toList ++ fingerprint md5 path)
          (size - 1)) st.world.1).1.errno →
        (sys (Syscall.readlink (st.rootdir ++ "/".toList ++ fingerprint md5 path) (size - 1))
          st.world.1).1.data = [] →
        (kvfs_readlink md5 (traced sys) st path link size).1
            = -(sys (Syscall.readlink (st.rootdir ++ "/".toList ++ fingerprint md5 path)
                (size - 1)) st.world.1).1.errno
        ∧ (kvfs_readlink md5 (traced sys) st path link size).2.1 = link) := by
  have hb : (size + 2 ^ 64 - 1) % 2 ^ 64 = size - 1 := by omega
  simp only [kvfs_readlink, kvfs_readlink_impl, real_path_inside_root_key, hb, Driver.call,
    traced]
  refine ⟨?_, ?_, ?_⟩
  · split <;> rfl
  · intro k hk hdl hle
    generalize (sys (Syscall.readlink (st.rootdir ++ "/".toList ++ fingerprint md5 path)
      (size - 1)) st.world.1).1 = r at hk hdl ⊢
    have hlog : log_syscall r.errno r.ret 0 = (k : Int) := by
      unfold log_syscall; rw [if_neg (by omega), hk]
    have hge : (k : Int) ≥ 0 := by omega
    simp only [hlog, hge, if_true, Int.toNat_ofNat]
    have hp : poke link 0 r.data = r.data ++ link.drop k := by
      rw [poke_zero _ _ (by omega), hdl]
    have hdrop : (link.drop k).length = size - k := by simp [hlen]
    rw [hp]
    cases hrest : link.drop k with
    | nil => rw [hrest] at hdrop; simp at hdrop; omega
    | cons t rest =>
      have hset : (r.data ++ t :: rest).set k NUL = r.data ++ NUL :: rest := by
        rw [List.set_append, if_neg (by omega), hdl]
        simp
      rw [hset]
      rw [hrest] at hdrop
      simp only [List.length_cons] at hdrop
      refine ⟨trivial, ?_, ?_, ?_, ?_⟩
      · simp only [List.length_append, List.length_cons, hdl]; omega
      · rw [List.take_append_eq_append_take, hdl]; simp [← hdl]
      · rw [List.getElem?_append_right (by omega), hdl]; simp
      · intro hnul
        exact cstr_append_NUL _ _ (fun c hc e => hnul (e ▸ hc))
  · intro hneg hpos hdata
    generalize (sys (Syscall.readlink (st.rootdir ++ "/".toList ++ fingerprint md5 path)
      (size - 1)) st.world.1).1 = r at hneg hpos hdata ⊢
    have hlog : log_syscall r.errno r.ret 0 = -r.errno := by
      unfold log_syscall; rw [if_pos hneg]
    have hlt : ¬ (-r.errno ≥ 0) := by omega
    simp only [hlog, hlt, if_false, hdata, poke]
    exact ⟨trivial, trivial⟩

/-- Evaluation of `readlink_terminates_buffer` on a buffer of 8 characters. -/
theorem readlink_terminates_buffer_witness :
    1 ≤ 8 ∧ 8 < 2 ^ 64 ∧ (List.replicate 8 'x').length = 8
    ∧ (kvfs_readlink sampleDigest (traced okSys)
        { first_run := 1, root := some (rootMarker sampleDigest), rootdir := "/data".toList,
          world := ((), []) } "/l".toList (List.replicate 8 'x') 8).2.2.world.2
      = [] ++ [Syscall.readlink
          ("/data".toList ++ "/".toList ++ fingerprint sampleDigest "/l".toList) (8 - 1)] :=
  ⟨by decide, by decide, by decide,
    (readlink_terminates_buffer sampleDigest okSys
      { first_run := 1, root := some (rootMarker sampleDigest), rootdir := "/data".toList,
        world := ((), []) } "/l".toList (List.replicate 8 'x') 8
      (by decide) (by decide) (by decide)).1⟩

/-! ## `main` -/

/-- C13: for every argument vector, if the real or the effective user id is 0
then `main` returns 1 and has neither allocated the driver state, nor resolved
the backing directory, nor called `fuse_main`; when neither id is 0, the
arguments pass the check (at least three, the last two not starting with `-`)
and the allocation succeeds, `main` returns the value that `fuse_main`
returned, `fuse_main` having been called once, with the backing directory
taken out of the argument vector. -/
theorem main_exit_code (env : MainEnv) (argv : List CString) :
    ((env.getuid = 0 ∨ env.geteuid = 0) →
        (main env argv).1 = Outcome.returned 1
        ∧ MainEvent.malloc ∉ (main env argv).2
        ∧ MainEvent.log_open ∉ (main env argv).2
        ∧ (∀ p, MainEvent.realpath p ∉ (main env argv).2)
        ∧ (∀ a, MainEvent.fuse_main a ∉ (main env argv).2))
    ∧ (env.getuid ≠ 0 → env.geteuid ≠ 0 → 3 ≤ argv.length →
        firstChar (argv.getD (argv.length - 2) []) ≠ '-' →
        firstChar (argv.getD (argv.length - 1) []) ≠ '-' →
        env.malloc_null = false →
        (main env argv).1 = Outcome.returned (env.fuse_main
            (argv.take (argv.length - 2) ++ [argv.getD (argv.length - 1) []]))
        ∧ (main env argv).2.count (MainEvent.fuse_main
            (argv.take (argv.length - 2) ++ [argv.getD (argv.length - 1) []])) = 1
        ∧ MainEvent.realpath (argv.getD (argv.length - 2) []) ∈ (main env argv).2)
    ∧ main { getuid := 0, geteuid := 1000, malloc_null := false, fuse_main := fun _ => 0 }
          ["kvfs".toList, "/data".toList, "/mnt".toList]
        = (Outcome.returned 1,
            [MainEvent.fprintf "Running KVFS as root opens unnacceptable security holes\n"])
    ∧ (main { getuid := 1000, geteuid := 1000, malloc_null := false,
              fuse_main := fun a => (a.length : Int) + 5 }
          ["kvfs".toList, "/data".toList, "/mnt".toList]).1 = Outcome.returned 7 := by
  refine ⟨?_, ?_, by decide, by decide⟩
  · intro h
    simp only [main, h, if_true]
    simp
  · intro h1 h2 h3 h4 h5 h6
    have hu : ¬ (env.getuid = 0 ∨ env.geteuid = 0) := by
      rintro (h | h)
      · exact h1 h
      · exact h2 h
    have hv : ¬ (argv.length < 3 ∨ firstChar (argv.getD (argv.length - 2) []) = '-'
        ∨ firstChar (argv.getD (argv.length - 1) []) = '-') := by
      rintro (h | h | h)
      · omega
      · exact h4 h
      · exact h5 h
    simp only [main, hu, hv, h6, if_false, Bool.false_eq_true]
    refine ⟨trivial, ?_, ?_⟩
    · simp [List.count_cons]
    · simp

/-! ## Error codes -/

/-- C12 (the code at the failing input): `kvfs_releasedir` makes the backing
call `closedir` and returns 0 whatever that call returns; in the environment
where every call fails with `errno = 9` it returns 0, not `-9`. Its sibling
`kvfs_release` returns `log_syscall` of its `close`, which is `-errno` when
`close` fails, and `kvfs_open` returns `-errno` when `open` fails. -/
theorem releasedir_drops_error {W : Type} (md5 : List Char → Digest) (sys : Sys W)
    (st : Driver (W × List Syscall)) (path : CString) (fi : fuse_file_info) :
    (kvfs_releasedir md5 (traced sys) st path fi).1 = 0
    ∧ (kvfs_releasedir md5 (traced sys) st path fi).2.world.2
        = st.world.2 ++ [Syscall.closedir fi.fh]
    ∧ (kvfs_releasedir md5 (failSys 9)
        { first_run := 1, root := some (rootMarker md5), rootdir := "/data".toList,
          world := () } "/a".toList { flags := 0, fh := 5 }).1 = 0
    ∧ ((sys (Syscall.close fi.fh) st.world.1).1.ret < 0 →
        (kvfs_release md5 (traced sys) st path fi).1
          = -(sys (Syscall.close fi.fh) st.world.1).1.errno)
    ∧ ((sys (Syscall.open_ (st.rootdir ++ "/".toList ++ fingerprint md5 path) fi.flags none)
          st.world.1).1.ret < 0 →
        0 < (sys (Syscall.open_ (st.rootdir ++ "/".toList ++ fingerprint md5 path) fi.flags
          none) st.world.1).1.errno →
        (kvfs_open md5 (traced sys) st path fi).1
          = -(sys (Syscall.open_ (st.rootdir ++ "/".toList ++ fingerprint md5 path) fi.flags
              none) st.world.1).1.errno) := by
  refine ⟨rfl, rfl, rfl, ?_, ?_⟩
  · intro h
    simp only [kvfs_release, kvfs_release_impl, Driver.call, traced, log_syscall, h, if_true]
  · intro h hpos
    simp only [kvfs_open, kvfs_open_impl, real_path_inside_root_key, Driver.call, traced,
      log_syscall, h, if_true, log_error]
    rw [if_pos (by omega)]

/-! ## `kvfs_readdir_impl` and the filler -/

theorem readdir_loop_feed {W : Type} (sys : Sys W) (dp : Int)
    (answer : List (CString × Int) → CString → Int) (rest : List CString) :
    ∀ (fuel : Nat) (st : Driver W) (calls : List (CString × Int)) (d : CString),
      Delivers sys dp st.world rest → rest.length < fuel →
      ∃ st1, kvfs_readdir_loop sys (recorder answer) dp fuel st calls d
        = some ((feed answer calls (d :: rest)).1, (feed answer calls (d :: rest)).2, st1) := by
  induction rest with
  | nil =>
    intro fuel st calls d hd hf
    obtain ⟨f, rfl⟩ : ∃ f, fuel = f + 1 := ⟨fuel - 1, by simp at hf; omega⟩
    have hret : (st.call sys (Syscall.readdir dp)).1.ret = 0 := hd
    by_cases ha : answer calls d = 0
    · refine ⟨(st.call sys (Syscall.readdir dp)).2, ?_⟩
      simp only [kvfs_readdir_loop, recorder, feed, ha, hret, ne_eq, not_true_eq_false,
        if_false]
    · refine ⟨st, ?_⟩
      simp only [kvfs_readdir_loop, recorder, feed, ha, ne_eq, not_false_eq_true, if_true]
  | cons n rest ih =>
    intro fuel st calls d hd hf
    obtain ⟨f, rfl⟩ : ∃ f, fuel = f + 1 := ⟨fuel - 1, by simp at hf; omega⟩
    obtain ⟨h1, h2, h3⟩ := hd
    have hret : (st.call sys (Syscall.readdir dp)).1.ret ≠ 0 := h1
    have hdata : (st.call sys (Syscall.readdir dp)).1.data = n := h2
    by_cases ha : answer calls d = 0
    · obtain ⟨st1, hst1⟩ := ih f (st.call sys (Syscall.readdir dp)).2 (calls ++ [(d, 0)]) n h3
        (by simp at hf; omega)
      refine ⟨st1, ?_⟩
      rw [kvfs_readdir_loop]
      simp only [recorder, ha, ne_eq, not_true_eq_false, if_false, hret, not_false_eq_true,
        if_true, hdata]
      rw [hst1]
      simp only [feed, ha, ne_eq, not_true_eq_false, if_false]
    · refine ⟨st, ?_⟩
      simp only [kvfs_readdir_loop, recorder, feed, ha, ne_eq, not_false_eq_true, if_true]

theorem feed_all_zero (answer : List (CString × Int) → CString → Int) (names : List CString) :
    ∀ calls : List (CString × Int),
      (∀ j n, names[j]? = some n →
        answer (calls ++ (names.take j).map (fun m => (m, (0 : Int)))) n = 0) →
      feed answer calls names = (0, calls ++ names.map (fun m => (m, (0 : Int)))) := by
  induction names with
  | nil => intro calls _; simp [feed]
  | cons a names ih =>
    intro calls h
    have h0 : answer calls a = 0 := by simpa using h 0 a (by simp)
    simp only [feed, h0, ne_eq, not_true_eq_false, if_false]
    rw [ih (calls ++ [(a, 0)])]
    · simp
    · intro j n hj
      have := h (j + 1) n (by simpa using hj)
      simpa using this

theorem feed_refusal (answer : List (CString × Int) → CString → Int) (names : List CString) :
    ∀ (calls : List (CString × Int)) (i : Nat) (n : CString), names[i]? = some n →
      (∀ j m, j < i → names[j]? = some m →
        answer (calls ++ (names.take j).map (fun m => (m, (0 : Int)))) m = 0) →
      answer (calls ++ (names.take i).map (fun m => (m, (0 : Int)))) n ≠ 0 →
      feed answer calls names
        = (-ENOMEM, calls ++ (names.take (i + 1)).map (fun m => (m, (0 : Int)))) := by
  induction names with
  | nil => intro calls i n hi; simp at hi
  | cons a names ih =>
    intro calls i n hi hz hr
    cases i with
    | zero =>
      simp only [List.getElem?_cons_zero, Option.some.injEq] at hi
      subst hi
      have hr0 : answer calls a ≠ 0 := by simpa using hr
      simp [feed, hr0]
    | succ i =>
      have h0 : answer calls a = 0 := by simpa using hz 0 a (by omega) (by simp)
      simp only [feed, h0, ne_eq, not_true_eq_false, if_false]
      rw [ih (calls ++ [(a, 0)]) i n (by simpa using hi)]
      · simp
      · intro j m hj hm
        have := hz (j + 1) m (by omega) (by simpa using hm)
        simpa using this
      · simpa using hr

/-- C14: `kvfs_readdir_impl` does not use `offset` (nor `path`) and reads the
whole stream in one call. When the stream delivers the names `e1 .. en`
(`n ≥ 1`) and the fuel covers them, a recording filler has received exactly
one call per name handed over, in stream order, each with offset 0: if every
call is answered 0 the result is 0 and all `n` names were handed over; if the
first non-zero answer is at entry `i` the result is `-ENOMEM` and the calls
are those for `e1 .. ei` only. When the stream delivers nothing the result is
`log_error` of the `errno` left by `readdir` and the filler is not called. -/
theorem readdir_feeds_filler {W : Type} (sys : Sys W) (st : Driver W) (path : CString)
    (offset : Int) (fi : fuse_file_info) (answer : List (CString × Int) → CString → Int)
    (calls : List (CString × Int)) (names : List CString) (fuel : Nat)
    (hd : Delivers sys fi.fh st.world names) (hf : names.length ≤ fuel) :
    kvfs_readdir_impl sys fuel st path calls (recorder answer) offset fi
        = kvfs_readdir_impl sys fuel st [] calls (recorder answer) 0 fi
    ∧ (names = [] →
        kvfs_readdir_impl sys fuel st path calls (recorder answer) offset fi
          = some (-(sys (Syscall.readdir fi.fh) st.world).1.errno, calls,
              (st.call sys (Syscall.readdir fi.fh)).2))
    ∧ (names ≠ [] →
        (∀ j n, names[j]? = some n →
          answer (calls ++ (names.take j).map (fun m => (m, (0 : Int)))) n = 0) →
        ∃ st1, kvfs_readdir_impl sys fuel st path calls (recorder answer) offset fi
          = some (0, calls ++ names.map (fun m => (m, (0 : Int))), st1))
    ∧ (∀ i n, names[i]? = some n →
        (∀ j m, j < i → names[j]? = some m →
          answer (calls ++ (names.take j).map (fun m => (m, (0 : Int)))) m = 0) →
        answer (calls ++ (names.take i).map (fun m => (m, (0 : Int)))) n ≠ 0 →
        ∃ st1, kvfs_readdir_impl sys fuel st path calls (recorder answer) offset fi
          = some (-ENOMEM, calls ++ (names.take (i + 1)).map (fun m => (m, (0 : Int))),
              st1)) := by
  have hfeed : names ≠ [] →
      ∃ st1, kvfs_readdir_impl sys fuel st path calls (recorder answer) offset fi
        = some ((feed answer calls names).1, (feed answer calls names).2, st1) := by
    intro hne
    cases names with
    | nil => exact absurd rfl hne
    | cons d rest =>
      obtain ⟨h1, h2, h3⟩ := hd
      have hret : (st.call sys (Syscall.readdir fi.fh)).1.ret ≠ 0 := h1
      have hdata : (st.call sys (Syscall.readdir fi.fh)).1.data = d := h2
      obtain ⟨st1, hst1⟩ := readdir_loop_feed sys fi.fh answer rest fuel
        (st.call sys (Syscall.readdir fi.fh)).2 calls d h3
        (by simp only [List.length_cons] at hf; omega)
      refine ⟨st1, ?_⟩
      simp only [kvfs_readdir_impl, hret, if_false, hdata]
      exact hst1
  refine ⟨rfl, ?_, ?_, ?_⟩
  · intro hnil
    subst hnil
    have hret : (st.call sys (Syscall.readdir fi.fh)).1.ret = 0 := hd
    simp only [kvfs_readdir_impl, hret, if_true, log_error]
    rfl
  · intro hne hz
    obtain ⟨st1, hst1⟩ := hfeed hne
    rw [feed_all_zero answer names calls hz] at hst1
    exact ⟨st1, hst1⟩
  · intro i n hi hz hr
    have hne : names ≠ [] := by
      intro e; rw [e] at hi; simp at hi
    obtain ⟨st1, hst1⟩ := hfeed hne
    rw [feed_refusal answer names calls i n hi hz hr] at hst1
    exact ⟨st1, hst1⟩

theorem streamHost_delivers :
    Delivers Host.exec 1 streamHost ["a".toList, "b".toList] :=
  ⟨by decide, rfl, by decide, rfl, rfl⟩

/-- Evaluation of `readdir_feeds_filler` on a stream that holds `a` and `b`,
with a filler that answers 0: both names are handed over, in order. -/
theorem readdir_feeds_filler_witness :
    Delivers Host.exec 1 streamHost ["a".toList, "b".toList]
    ∧ ["a".toList, "b".toList].length ≤ 2
    ∧ ∃ st1, kvfs_readdir_impl Host.exec 2 (Driver.initial "/data".toList streamHost)
          "/x".toList [] (recorder (fun _ _ => 0)) 7 { flags := 0, fh := 1 }
        = some (0, [] ++ ["a".toList, "b".toList].map (fun m => (m, (0 : Int))), st1) :=
  ⟨streamHost_delivers, by decide,
    (readdir_feeds_filler Host.exec (Driver.initial "/data".toList streamHost) "/x".toList 7
      { flags := 0, fh := 1 } (fun _ _ => 0) [] ["a".toList, "b".toList] 2
      streamHost_delivers (by decide)).2.2.1 (by decide) (fun _ _ _ => rfl)⟩

end KVFS
